import Mathlib

/-!
# Verification of the meteor detection pipeline

A shallow embedding, in Lean 4, of the integer core of the meteor
detection pipeline: the FTP temporal accumulator (`src/ftp.c`), the
Hough accumulator (`src/hough.c`), the candidate collector and the
detector push/handoff state machine (`src/detector.c`), the FF summary
writer (`src/ff_writer.c`) and the stack averager (`src/stacker.c`).

Machine integers are modelled as `Nat`/`Int` with explicit `% 2^w`
where the C type could wrap (`u16 sum`, `u32 sum_sq`, `u8` frame
indices, `u8` casts in the candidate threshold).  C's truncating
signed division is `Int.tdiv`; C's conversion to an unsigned type is
`Int.emod` by the modulus (which is Lean's `%` on `Int`).
-/

/-! ## Compile-time constants (`meteor_config.h`, `detector.h`) -/

def DETECT_WIDTH : Nat := 640
def DETECT_HEIGHT : Nat := 480
def FTP_BLOCK_FRAMES : Nat := 256
def METEOR_FTP_K : Nat := 5
def HOUGH_THETA_STEPS : Nat := 180
def HOUGH_RHO_MAX : Nat := 900
def HOUGH_PEAK_THRESHOLD : Nat := 8
def METEOR_MIN_VOTES : Nat := 10
def DETECTOR_MAX_CANDS : Nat := 4096
def DETECTOR_MAX_LINES : Nat := 16
def UINT16_MAX : Nat := 65535

/-! ## FTP accumulator (`src/ftp.c`) -/

/-- Per-pixel accumulation state (`FTPPixel` in `ftp.h`).  The C fields
are `u8 maxpixel`, `u8 maxframe`, `u16 sum`, `u32 sum_sq`; wrapping of
the two sums is made explicit in `ftp_pixel_update`. -/
structure FTPPixel where
  maxpixel : Nat
  maxframe : Nat
  sum : Nat
  sum_sq : Nat
deriving Repr, DecidableEq

/-- The zero pixel state (`ftp_block_create` / `ftp_block_reset` memset). -/
def FTPPixel.zero : FTPPixel := ⟨0, 0, 0, 0⟩

/-- The inner-loop body of `ftp_block_update` for one pixel: running
max with first-occurrence frame index, then `sum += luma` (u16) and
`sum_sq += luma*luma` (u32). -/
def ftp_pixel_update (p : FTPPixel) (luma fidx : Nat) : FTPPixel :=
  let p1 := if p.maxpixel < luma then { p with maxpixel := luma, maxframe := fidx } else p
  { p1 with sum := (p1.sum + luma) % 65536,
            sum_sq := (p1.sum_sq + luma * luma) % 4294967296 }

/-- One FTP accumulation block (`FTPBlock` in `ftp.h`): pixels are
modelled as a total function on flat pixel indices. -/
structure FTPBlock where
  width : Nat
  height : Nat
  pixels : Nat → FTPPixel
  block_index : Nat
  timestamp_ms : Nat
  frame_count : Nat

/-- `ftp_block_create`: zeroed block. -/
def ftp_block_create (w h : Nat) : FTPBlock :=
  ⟨w, h, fun _ => FTPPixel.zero, 0, 0, 0⟩

/-- `ftp_block_reset`: zero the pixels, reset `frame_count`, record the
start timestamp, bump the (u8) block index. -/
def ftp_block_reset (b : FTPBlock) (start_timestamp_ms : Nat) : FTPBlock :=
  { b with pixels := fun _ => FTPPixel.zero,
           frame_count := 0,
           timestamp_ms := start_timestamp_ms,
           block_index := (b.block_index + 1) % 256 }

/-- `ftp_block_update`: accumulate one luma frame.  Pixel `i` sits at
row `i / width`, column `i % width`, and reads byte
`row * stride + col` of the Y plane; `frame_idx` is a `u8`. -/
def ftp_block_update (b : FTPBlock) (y_plane : Nat → Nat) (stride fidx : Nat) : FTPBlock :=
  { b with
    pixels := fun i =>
      ftp_pixel_update (b.pixels i) (y_plane (i / b.width * stride + i % b.width)) (fidx % 256),
    frame_count := b.frame_count + 1 }

/-- Feed a list of frames to `ftp_block_update` with consecutive frame
indices starting at `k` (the caller-side loop in `detector_push_frame`). -/
def ftp_apply (b : FTPBlock) (frames : List (Nat → Nat)) (stride k : Nat) : FTPBlock :=
  match frames with
  | [] => b
  | f :: rest => ftp_apply (ftp_block_update b f stride k) rest stride (k + 1)

/-- The loop of `isqrt32` (`ftp.c`): Newton iteration
`x1 = (x + n / x) / 2` while it still decreases. -/
def isqrtLoop (n x x1 : Nat) : Nat :=
  if _h : x1 < x then isqrtLoop n x1 ((x1 + n / x1) / 2) else x
termination_by x

/-- `isqrt32` (`ftp.c`): integer square root via Newton's method,
starting from `x = n`, `x1 = (n + 1) / 2`. -/
def isqrt32 (n : Nat) : Nat :=
  if n = 0 then 0 else isqrtLoop n n ((n + 1) / 2)

/-- The per-pixel computation of `ftp_block_finalize`, returning
`(out_maxpixel, out_maxframe, out_avgpixel, out_stdpixel)`. -/
def ftp_finalize_pixel (p : FTPPixel) (fc : Nat) : Nat × Nat × Nat × Nat :=
  let avg := p.sum / fc
  let avg_sq := p.sum_sq / fc
  let var := if avg * avg < avg_sq then avg_sq - avg * avg else 0
  let std_val := isqrt32 var
  (p.maxpixel, p.maxframe, if 255 < avg then 255 else avg, if 255 < std_val then 255 else std_val)

/-- `ftp_block_finalize`: the four output planes as functions of the
flat pixel index. -/
def ftp_block_finalize (b : FTPBlock) :
    (Nat → Nat) × (Nat → Nat) × (Nat → Nat) × (Nat → Nat) :=
  let fc := if 0 < b.frame_count then b.frame_count else 1
  (fun i => (ftp_finalize_pixel (b.pixels i) fc).1,
   fun i => (ftp_finalize_pixel (b.pixels i) fc).2.1,
   fun i => (ftp_finalize_pixel (b.pixels i) fc).2.2.1,
   fun i => (ftp_finalize_pixel (b.pixels i) fc).2.2.2)

/-! ### Correctness of the Newton integer square root -/

theorem two_mul_sqrt_le_newton (n x : Nat) (hx : 0 < x) :
    2 * Nat.sqrt n ≤ x + n / x := by
  set s := Nat.sqrt n with hs
  rcases le_or_lt (2 * s) x with h | h
  · exact le_trans h (Nat.le_add_right _ _)
  · have hsn : s * s ≤ n := Nat.sqrt_le n
    have hmul : (2 * s - x) * x ≤ s * s := by
      zify [h.le]
      nlinarith [sq_nonneg ((s : Int) - x)]
    have hdiv : 2 * s - x ≤ n / x :=
      (Nat.le_div_iff_mul_le hx).mpr (le_trans hmul hsn)
    omega

theorem sqrt_le_newton_step (n x : Nat) (hx : 0 < x) :
    Nat.sqrt n ≤ (x + n / x) / 2 := by
  rw [Nat.le_div_iff_mul_le (by norm_num : 0 < 2)]
  have := two_mul_sqrt_le_newton n x hx
  omega

theorem isqrtLoop_eq_sqrt (n : Nat) (hn : 0 < n) :
    ∀ x, 0 < x → Nat.sqrt n ≤ x → isqrtLoop n x ((x + n / x) / 2) = Nat.sqrt n := by
  intro x
  induction x using Nat.strong_induction_on with
  | _ x ih =>
    intro hx hsx
    rw [isqrtLoop]
    split
    · next hlt =>
      have hsx1 : Nat.sqrt n ≤ (x + n / x) / 2 := sqrt_le_newton_step n x hx
      have hx1 : 0 < (x + n / x) / 2 := by
        have : 0 < Nat.sqrt n := Nat.sqrt_pos.mpr hn
        omega
      exact ih _ hlt hx1 hsx1
    · next hge =>
      have hxle : x ≤ (x + n / x) / 2 := by omega
      have h2 : x * 2 ≤ x + n / x := (Nat.le_div_iff_mul_le (by norm_num)).mp hxle
      have h3 : x ≤ n / x := by omega
      have h4 : x * x ≤ n := (Nat.le_div_iff_mul_le hx).mp h3
      have h5 : x ≤ Nat.sqrt n := Nat.le_sqrt.mpr h4
      omega

theorem isqrt32_eq_sqrt (n : Nat) : isqrt32 n = Nat.sqrt n := by
  unfold isqrt32
  split
  · next h => simp [h]
  · next h =>
    have hn : 0 < n := Nat.pos_of_ne_zero h
    have hnn : (n + 1) / 2 = (n + n / n) / 2 := by rw [Nat.div_self hn]
    rw [hnn]
    exact isqrtLoop_eq_sqrt n hn n hn (Nat.sqrt_le_self n)

/-! ### Pixel-level view of a block build -/

/-- Pixel-level restatement of feeding a list of luma values with
consecutive frame indices starting at `k` (the `u8` truncation of the
frame index is kept). -/
def applyPix (p : FTPPixel) (ls : List Nat) (k : Nat) : FTPPixel :=
  match ls with
  | [] => p
  | l :: rest => applyPix (ftp_pixel_update p l (k % 256)) rest (k + 1)

/-- Maximum of a list of naturals (the mathematical side of the C1 claim). -/
def listMax (ls : List Nat) : Nat := ls.foldl max 0

/-- Sum of squares of a list of naturals. -/
def sumSq (ls : List Nat) : Nat := (ls.map (fun v => v * v)).sum

theorem applyPix_append (as bs : List Nat) :
    ∀ (p : FTPPixel) (k : Nat),
      applyPix p (as ++ bs) k = applyPix (applyPix p as k) bs (k + as.length) := by
  induction as with
  | nil => intro p k; simp [applyPix]
  | cons a t ih =>
    intro p k
    have h : k + 1 + t.length = k + (a :: t).length := by
      simp only [List.length_cons]
      omega
    calc applyPix p ((a :: t) ++ bs) k
        = applyPix (ftp_pixel_update p a (k % 256)) (t ++ bs) (k + 1) := rfl
      _ = applyPix (applyPix (ftp_pixel_update p a (k % 256)) t (k + 1)) bs (k + 1 + t.length) :=
          ih _ _
      _ = applyPix (applyPix p (a :: t) k) bs (k + (a :: t).length) := by rw [h]; rfl

theorem ftp_apply_width (b : FTPBlock) (frames : List (Nat → Nat)) (stride k : Nat) :
    (ftp_apply b frames stride k).width = b.width := by
  induction frames generalizing b k with
  | nil => rfl
  | cons f rest ih => simp [ftp_apply, ih, ftp_block_update]

theorem ftp_apply_frame_count (b : FTPBlock) (frames : List (Nat → Nat)) (stride k : Nat) :
    (ftp_apply b frames stride k).frame_count = b.frame_count + frames.length := by
  induction frames generalizing b k with
  | nil => simp [ftp_apply]
  | cons f rest ih =>
    simp [ftp_apply, ih, ftp_block_update]
    omega

theorem ftp_apply_pixels (b : FTPBlock) (frames : List (Nat → Nat)) (stride k i : Nat) :
    (ftp_apply b frames stride k).pixels i =
      applyPix (b.pixels i)
        (frames.map (fun f => f (i / b.width * stride + i % b.width))) k := by
  induction frames generalizing b k with
  | nil => rfl
  | cons f rest ih =>
    simp only [ftp_apply, List.map_cons, applyPix]
    rw [ih]
    rfl

/-! ### Facts about `foldl max` and `getD` -/

theorem le_foldl_max_init (ls : List Nat) : ∀ i, i ≤ ls.foldl max i := by
  induction ls with
  | nil => intro i; simp
  | cons a t ih =>
    intro i
    simp only [List.foldl_cons]
    exact le_trans (le_max_left i a) (ih (max i a))

theorem mem_le_foldl_max (ls : List Nat) (a : Nat) (ha : a ∈ ls) :
    ∀ i, a ≤ ls.foldl max i := by
  induction ls with
  | nil => cases ha
  | cons x t ih =>
    intro i
    simp only [List.foldl_cons]
    rcases List.mem_cons.mp ha with h | h
    · subst h
      exact le_trans (le_max_right i a) (le_foldl_max_init t (max i a))
    · exact ih h (max i x)

theorem getD_mem_of_lt (ls : List Nat) (j : Nat) (hj : j < ls.length) :
    ls.getD j 0 ∈ ls := by
  rw [List.getD_eq_getElem?_getD, List.getElem?_eq_getElem hj]
  exact List.getElem_mem hj

theorem getD_le_listMax (ls : List Nat) (j : Nat) (hj : j < ls.length) :
    ls.getD j 0 ≤ listMax ls :=
  mem_le_foldl_max ls _ (getD_mem_of_lt ls j hj) 0

theorem listMax_append_singleton (ls : List Nat) (l : Nat) :
    listMax (ls ++ [l]) = max (listMax ls) l := by
  simp [listMax, List.foldl_append]

theorem sumSq_append_singleton (ls : List Nat) (l : Nat) :
    sumSq (ls ++ [l]) = sumSq ls + l * l := by
  simp [sumSq]

theorem list_sum_le_255 (ls : List Nat) (hb : ∀ v ∈ ls, v ≤ 255) :
    ls.sum ≤ 255 * ls.length := by
  have := List.sum_le_card_nsmul ls 255 hb
  simpa [smul_eq_mul, Nat.mul_comm] using this

theorem sumSq_le_65025 (ls : List Nat) (hb : ∀ v ∈ ls, v ≤ 255) :
    sumSq ls ≤ 65025 * ls.length := by
  have hmap : ∀ x ∈ ls.map (fun v => v * v), x ≤ 65025 := by
    intro x hx
    rcases List.mem_map.mp hx with ⟨v, hv, rfl⟩
    exact Nat.mul_le_mul (hb v hv) (hb v hv)
  have := List.sum_le_card_nsmul (ls.map (fun v => v * v)) 65025 hmap
  simpa [sumSq, smul_eq_mul, Nat.mul_comm] using this

/-! ### The accumulator invariant (per pixel) -/

theorem applyPix_spec :
    ∀ (ls : List Nat), ls.length ≤ 256 → (∀ v ∈ ls, v ≤ 255) →
      (applyPix FTPPixel.zero ls 0).maxpixel = listMax ls ∧
      (applyPix FTPPixel.zero ls 0).sum = ls.sum ∧
      (applyPix FTPPixel.zero ls 0).sum_sq = sumSq ls ∧
      (ls = [] → (applyPix FTPPixel.zero ls 0).maxframe = 0) ∧
      (ls ≠ [] →
        (applyPix FTPPixel.zero ls 0).maxframe < ls.length ∧
        ls.getD (applyPix FTPPixel.zero ls 0).maxframe 0 = listMax ls ∧
        ∀ j < (applyPix FTPPixel.zero ls 0).maxframe, ls.getD j 0 ≠ listMax ls) := by
  intro ls
  induction ls using List.reverseRecOn with
  | nil =>
    intro _ _
    refine ⟨rfl, rfl, rfl, fun _ => rfl, fun h => absurd rfl h⟩
  | append_singleton ls l ih =>
    intro hlen hb
    have hlen' : ls.length ≤ 255 := by
      have := hlen
      simp only [List.length_append, List.length_cons, List.length_nil] at this
      omega
    have hb' : ∀ v ∈ ls, v ≤ 255 := fun v hv => hb v (List.mem_append.mpr (Or.inl hv))
    have hl : l ≤ 255 := hb l (List.mem_append.mpr (Or.inr (List.mem_singleton.mpr rfl)))
    obtain ⟨ihmax, ihsum, ihsq, ihmf0, ihmf⟩ := ih (le_trans hlen' (by norm_num)) hb'
    have happ : applyPix FTPPixel.zero (ls ++ [l]) 0 =
        ftp_pixel_update (applyPix FTPPixel.zero ls 0) l (ls.length % 256) := by
      rw [applyPix_append]
      simp [applyPix]
    set P := applyPix FTPPixel.zero ls 0 with hP
    have hmod : ls.length % 256 = ls.length := Nat.mod_eq_of_lt (by omega)
    have hsumle : P.sum + l < 65536 := by
      have h1 : ls.sum ≤ 255 * ls.length := list_sum_le_255 ls hb'
      rw [ihsum]
      have : 255 * ls.length ≤ 255 * 255 := Nat.mul_le_mul_left _ hlen'
      omega
    have hsqle : P.sum_sq + l * l < 4294967296 := by
      have h1 : sumSq ls ≤ 65025 * ls.length := sumSq_le_65025 ls hb'
      rw [ihsq]
      have h2 : 65025 * ls.length ≤ 65025 * 255 := Nat.mul_le_mul_left _ hlen'
      have h3 : l * l ≤ 65025 := Nat.mul_le_mul hl hl
      omega
    rw [happ]
    unfold ftp_pixel_update
    by_cases hcmp : P.maxpixel < l
    · simp only [hcmp, if_pos, hmod]
      refine ⟨?_, ?_, ?_, ?_, ?_⟩
      · simp only [listMax_append_singleton]
        rw [ihmax] at hcmp
        simp [Nat.max_eq_right hcmp.le]
      · simp only [Nat.mod_eq_of_lt hsumle, ihsum, List.sum_append, List.sum_cons,
          List.sum_nil]
        omega
      · rw [ihsq] at hsqle
        simp only [ihsq, sumSq_append_singleton]
        omega
      · intro h
        exact absurd h (by simp)
      · intro _
        refine ⟨by simp, ?_, ?_⟩
        · have : (ls ++ [l]).getD ls.length 0 = l := by
            rw [List.getD_append_right ls [l] 0 ls.length le_rfl]
            simp
          rw [this, listMax_append_singleton]
          rw [ihmax] at hcmp
          simp [Nat.max_eq_right hcmp.le]
        · intro j hj
          have hjlt : j < ls.length := hj
          rw [List.getD_append ls [l] 0 j hjlt, listMax_append_singleton]
          have h1 : ls.getD j 0 ≤ listMax ls := getD_le_listMax ls j hjlt
          rw [ihmax] at hcmp
          have : max (listMax ls) l = l := Nat.max_eq_right hcmp.le
          omega
    · simp only [hcmp, if_neg, if_false]
      have hle : l ≤ P.maxpixel := Nat.not_lt.mp hcmp
      rw [ihmax] at hle
      have hmaxeq : listMax (ls ++ [l]) = listMax ls := by
        rw [listMax_append_singleton]
        exact Nat.max_eq_left hle
      refine ⟨?_, ?_, ?_, ?_, ?_⟩
      · rw [ihmax, hmaxeq]
      · simp only [Nat.mod_eq_of_lt hsumle, ihsum, List.sum_append, List.sum_cons,
          List.sum_nil]
        omega
      · rw [ihsq] at hsqle
        simp only [ihsq, sumSq_append_singleton]
        omega
      · intro h
        exact absurd h (by simp)
      · intro _
        by_cases hnil : ls = []
        · subst hnil
          have hl0 : l = 0 := by
            simp [listMax] at hle
            omega
          subst hl0
          have hmf : P.maxframe = 0 := ihmf0 rfl
          refine ⟨by simp [hmf], ?_, ?_⟩
          · rw [hmf]
            simp [listMax]
          · intro j hj
            rw [hmf] at hj
            omega
        · obtain ⟨ihlt, ihget, ihmin⟩ := ihmf hnil
          refine ⟨?_, ?_, ?_⟩
          · simp only [List.length_append, List.length_cons, List.length_nil]
            omega
          · rw [List.getD_append ls [l] 0 _ ihlt, hmaxeq]
            exact ihget
          · intro j hj
            have hjlt : j < ls.length := lt_trans hj ihlt
            rw [List.getD_append ls [l] 0 j hjlt, hmaxeq]
            exact ihmin j hj

/-- The four planes a detector block yields: `ftp_block_finalize` of a
block built by `ftp_apply` from a zeroed `ftp_block_create w h` with
stride `w` and frame indices `0, 1, ...`. -/
def c1_outs (w h : Nat) (frames : List (Nat → Nat)) :
    (Nat → Nat) × (Nat → Nat) × (Nat → Nat) × (Nat → Nat) :=
  ftp_block_finalize (ftp_apply (ftp_block_create w h) frames w 0)

/-- C1: for a block built by `ftp_block_update` from `n` frames
(`1 ≤ n ≤ 256`, luma values in `[0,255]`, stride = width),
`ftp_block_finalize` yields, per pixel `i`: the max luma, the least
frame index attaining it, `⌊(∑ luma)/n⌋` clamped to 255, and a std
within 1 of `⌊√(max(⌊sum_sq/n⌋ − avg², 0))⌋` clamped to 255. -/
theorem C1_accumulator_soundness
    (w h : Nat) (frames : List (Nat → Nat)) (i : Nat)
    (hne : frames ≠ []) (hlen : frames.length ≤ 256)
    (hbound : ∀ f ∈ frames, ∀ j, f j ≤ 255) (hi : i < w * h) :
    (c1_outs w h frames).1 i = listMax (frames.map (fun f => f i)) ∧
    ((c1_outs w h frames).2.1 i < frames.length ∧
      (frames.map (fun f => f i)).getD ((c1_outs w h frames).2.1 i) 0 =
        listMax (frames.map (fun f => f i)) ∧
      ∀ j < (c1_outs w h frames).2.1 i,
        (frames.map (fun f => f i)).getD j 0 ≠ listMax (frames.map (fun f => f i))) ∧
    (c1_outs w h frames).2.2.1 i =
      min ((frames.map (fun f => f i)).sum / frames.length) 255 ∧
    (c1_outs w h frames).2.2.2 i ≤
      min (Nat.sqrt (sumSq (frames.map (fun f => f i)) / frames.length -
        (frames.map (fun f => f i)).sum / frames.length *
        ((frames.map (fun f => f i)).sum / frames.length))) 255 + 1 ∧
    min (Nat.sqrt (sumSq (frames.map (fun f => f i)) / frames.length -
        (frames.map (fun f => f i)).sum / frames.length *
        ((frames.map (fun f => f i)).sum / frames.length))) 255 ≤
      (c1_outs w h frames).2.2.2 i + 1 := by
  show
    (let B := ftp_apply (ftp_block_create w h) frames w 0
     let outs := ftp_block_finalize B
     let lumas := frames.map (fun f => f i)
     let n := frames.length
     let varSpec := sumSq lumas / n - lumas.sum / n * (lumas.sum / n)
     outs.1 i = listMax lumas ∧
     (outs.2.1 i < n ∧ lumas.getD (outs.2.1 i) 0 = listMax lumas ∧
       ∀ j < outs.2.1 i, lumas.getD j 0 ≠ listMax lumas) ∧
     outs.2.2.1 i = min (lumas.sum / n) 255 ∧
     outs.2.2.2 i ≤ min (Nat.sqrt varSpec) 255 + 1 ∧
     min (Nat.sqrt varSpec) 255 ≤ outs.2.2.2 i + 1)
  intro B outs lumas n varSpec
  have hi0 : i / w * w + i % w = i := by
    rw [Nat.mul_comm]
    exact Nat.div_add_mod i w
  have hpix : B.pixels i = applyPix FTPPixel.zero lumas 0 := by
    show (ftp_apply (ftp_block_create w h) frames w 0).pixels i = _
    rw [ftp_apply_pixels]
    simp only [ftp_block_create, hi0]
  have hfc : B.frame_count = n := by
    show (ftp_apply (ftp_block_create w h) frames w 0).frame_count = n
    rw [ftp_apply_frame_count]
    simp [ftp_block_create]
  have hn : 0 < n := List.length_pos.mpr hne
  have hlb : ∀ v ∈ lumas, v ≤ 255 := by
    intro v hv
    rcases List.mem_map.mp hv with ⟨f, hf, rfl⟩
    exact hbound f hf i
  have hll : lumas.length = n := List.length_map frames _
  have hlne : lumas ≠ [] := by
    simp only [lumas, ne_eq, List.map_eq_nil_iff]
    exact hne
  obtain ⟨hmax, hsum, hsq, _, hmf⟩ := applyPix_spec lumas (by omega) hlb
  obtain ⟨hmflt, hmfget, hmfmin⟩ := hmf hlne
  have hfc2 : (if 0 < B.frame_count then B.frame_count else 1) = n := by
    rw [hfc, if_pos hn]
  have houts : outs = ftp_block_finalize B := rfl
  simp only [houts, ftp_block_finalize, ftp_finalize_pixel, hfc2, hpix, hmax, hsum, hsq]
  refine ⟨trivial, ⟨by omega, hmfget, hmfmin⟩, ?_, ?_, ?_⟩
  · split <;> omega
  · rw [isqrt32_eq_sqrt]
    have hv : (if lumas.sum / n * (lumas.sum / n) < sumSq lumas / n then
        sumSq lumas / n - lumas.sum / n * (lumas.sum / n) else 0) = varSpec := by
      simp only [varSpec]
      split <;> omega
    rw [hv]
    split <;> omega
  · rw [isqrt32_eq_sqrt]
    have hv : (if lumas.sum / n * (lumas.sum / n) < sumSq lumas / n then
        sumSq lumas / n - lumas.sum / n * (lumas.sum / n) else 0) = varSpec := by
      simp only [varSpec]
      split <;> omega
    rw [hv]
    split <;> omega

/-- Witness for C1 at `w = 1, h = 1`, frames `[5, 3]`, pixel `0`:
max 5 at frame 0, avg `⌊8/2⌋ = 4`, var `⌊34/2⌋ − 16 = 1`, std 1. -/
theorem C1_accumulator_soundness_witness :
    ((fun _ : Nat => (5 : Nat)) :: [fun _ : Nat => (3 : Nat)] ≠ [] ∧
      0 < 1 * 1) ∧
    (let outs := c1_outs 1 1 ((fun _ : Nat => (5 : Nat)) :: [fun _ : Nat => (3 : Nat)])
     let lumas := ((fun _ : Nat => (5 : Nat)) :: [fun _ : Nat => (3 : Nat)]).map
        (fun f => f 0)
     let n := ((fun _ : Nat => (5 : Nat)) :: [fun _ : Nat => (3 : Nat)]).length
     let varSpec := sumSq lumas / n - lumas.sum / n * (lumas.sum / n)
     outs.1 0 = listMax lumas ∧
     (outs.2.1 0 < n ∧ lumas.getD (outs.2.1 0) 0 = listMax lumas ∧
       ∀ j < outs.2.1 0, lumas.getD j 0 ≠ listMax lumas) ∧
     outs.2.2.1 0 = min (lumas.sum / n) 255 ∧
     outs.2.2.2 0 ≤ min (Nat.sqrt varSpec) 255 + 1 ∧
     min (Nat.sqrt varSpec) 255 ≤ outs.2.2.2 0 + 1) := by
  refine ⟨⟨by simp, by norm_num⟩, ?_⟩
  exact C1_accumulator_soundness 1 1 _ 0 (by simp) (by simp)
    (by
      intro f hf j
      rcases List.mem_cons.mp hf with h | h
      · subst h; norm_num
      · rcases List.mem_singleton.mp h with rfl; norm_num)
    (by norm_num)

/-! ## Detector producer state machine (`src/detector.c`) -/

/-- The fields of `DetectorState` relevant to `detector_push_frame` and
the consumer handoff: the double-buffered blocks, the active index, the
producer frame counter, the `pending` slot and the block the consumer
thread currently owns. -/
structure DetectorState where
  blockA : FTPBlock
  blockB : FTPBlock
  active : Nat
  frame_count : Nat
  pending : Option Nat
  processing : Option Nat

/-- `det->blocks[i]` (index 0 is A, anything else is B). -/
def DetectorState.block (s : DetectorState) (i : Nat) : FTPBlock :=
  if i = 0 then s.blockA else s.blockB

/-- Replace `det->blocks[i]`. -/
def DetectorState.setBlock (s : DetectorState) (i : Nat) (b : FTPBlock) : DetectorState :=
  if i = 0 then { s with blockA := b } else { s with blockB := b }

/-- `detector_create`: both blocks zeroed, active 0, no pending work. -/
def detector_create_state : DetectorState :=
  ⟨ftp_block_create DETECT_WIDTH DETECT_HEIGHT,
   ftp_block_create DETECT_WIDTH DETECT_HEIGHT, 0, 0, none, none⟩

/-- `detector_push_frame`: reset the active block on the first frame of
a cycle, accumulate, and on the 256th frame overwrite the block's
`timestamp_ms` with the current frame's timestamp and attempt handoff
(dropping the block when the consumer is still busy). -/
def detector_push_frame (s : DetectorState) (y_plane : Nat → Nat)
    (stride timestamp_ms : Nat) : DetectorState :=
  let a := s.active
  let fidx := s.frame_count % 256
  let b0 := s.block a
  let b1 := if s.frame_count = 0 then ftp_block_reset b0 timestamp_ms else b0
  let b2 := ftp_block_update b1 y_plane stride fidx
  let fc := s.frame_count + 1
  if FTP_BLOCK_FRAMES ≤ fc then
    let b3 := { b2 with timestamp_ms := timestamp_ms }
    let s2 := s.setBlock a b3
    match s.pending with
    | none => { s2 with pending := some a, active := 1 - a, frame_count := 0 }
    | some _ => { s2 with frame_count := 0 }
  else
    { s.setBlock a b2 with frame_count := fc }

/-- Consumer thread takes the pending block (`proc_thread_func` clears
`pending` before processing). -/
def worker_take (s : DetectorState) : DetectorState :=
  match s.pending with
  | some b => { s with pending := none, processing := some b }
  | none => s

/-- Consumer thread finishes `process_block`, which ends with
`ftp_block_reset(blk, 0)`. -/
def worker_finish (s : DetectorState) : DetectorState :=
  match s.processing with
  | some b => { s.setBlock b (ftp_block_reset (s.block b) 0) with processing := none }
  | none => s

/-- Detector states reachable from construction by any interleaving of
producer pushes (with in-range luma) and consumer steps. -/
inductive DetReachable : DetectorState → Prop where
  | init : DetReachable detector_create_state
  | push : ∀ s y stride ts, DetReachable s → (∀ j, y j ≤ 255) →
      DetReachable (detector_push_frame s y stride ts)
  | take : ∀ s, DetReachable s → DetReachable (worker_take s)
  | finish : ∀ s, DetReachable s → DetReachable (worker_finish s)

theorem ftp_pixel_update_sum (p : FTPPixel) (luma fidx : Nat) :
    (ftp_pixel_update p luma fidx).sum = (p.sum + luma) % 65536 := by
  unfold ftp_pixel_update
  split <;> rfl

theorem ftp_pixel_update_sum_sq (p : FTPPixel) (luma fidx : Nat) :
    (ftp_pixel_update p luma fidx).sum_sq = (p.sum_sq + luma * luma) % 4294967296 := by
  unfold ftp_pixel_update
  split <;> rfl

/-- The handoff-discipline invariant: the producer counter stays below
256, every block has seen at most 256 updates since its last reset, the
active block has seen at most `frame_count` of them, and the pixel sums
are bounded by the per-block update count. -/
def DetInv (s : DetectorState) : Prop :=
  s.frame_count ≤ 255 ∧
  (∀ i, (s.block i).frame_count ≤ 256) ∧
  (s.frame_count ≠ 0 → (s.block s.active).frame_count ≤ s.frame_count) ∧
  (∀ i pix, ((s.block i).pixels pix).sum ≤ 255 * (s.block i).frame_count ∧
            ((s.block i).pixels pix).sum_sq ≤ 65025 * (s.block i).frame_count)



theorem setBlock_block (s : DetectorState) (a i : Nat) (b : FTPBlock) :
    (s.setBlock a b).block i =
      if (decide (i = 0)) = (decide (a = 0)) then b else s.block i := by
  unfold DetectorState.setBlock DetectorState.block
  by_cases hi : i = 0 <;> by_cases ha : a = 0 <;> simp [hi, ha]

theorem setBlock_active (s : DetectorState) (a : Nat) (b : FTPBlock) :
    (s.setBlock a b).active = s.active := by
  unfold DetectorState.setBlock
  split <;> rfl

theorem setBlock_frame_count (s : DetectorState) (a : Nat) (b : FTPBlock) :
    (s.setBlock a b).frame_count = s.frame_count := by
  unfold DetectorState.setBlock
  split <;> rfl

theorem setBlock_pending (s : DetectorState) (a : Nat) (b : FTPBlock) :
    (s.setBlock a b).pending = s.pending := by
  unfold DetectorState.setBlock
  split <;> rfl

theorem setBlock_processing (s : DetectorState) (a : Nat) (b : FTPBlock) :
    (s.setBlock a b).processing = s.processing := by
  unfold DetectorState.setBlock
  split <;> rfl

theorem ftp_block_update_fc (b : FTPBlock) (y : Nat → Nat) (stride fidx : Nat) :
    (ftp_block_update b y stride fidx).frame_count = b.frame_count + 1 := rfl

/-- A detector state whose blocks come from replacing one block of `s`
satisfies the invariant, given bounds on the new block and the claimed
counter. -/
theorem detInv_after_set (s : DetectorState) (a : Nat) (U : FTPBlock)
    (act fc : Nat) (p q : Option Nat)
    (h2 : ∀ i, (s.block i).frame_count ≤ 256)
    (h4 : ∀ i pix, ((s.block i).pixels pix).sum ≤ 255 * (s.block i).frame_count ∧
            ((s.block i).pixels pix).sum_sq ≤ 65025 * (s.block i).frame_count)
    (hfc : fc ≤ 255)
    (hU256 : U.frame_count ≤ 256)
    (hUpix : ∀ pix, (U.pixels pix).sum ≤ 255 * U.frame_count ∧
            (U.pixels pix).sum_sq ≤ 65025 * U.frame_count)
    (hact : fc ≠ 0 → (((s.setBlock a U).block act)).frame_count ≤ fc) :
    DetInv (DetectorState.mk (s.setBlock a U).blockA (s.setBlock a U).blockB act fc p q) := by
  refine ⟨hfc, ?_, ?_, ?_⟩
  · intro i
    show (((s.setBlock a U).block i)).frame_count ≤ 256
    rw [setBlock_block]
    split
    · exact hU256
    · exact h2 i
  · intro hne
    exact hact hne
  · intro i pix
    show ((((s.setBlock a U).block i)).pixels pix).sum
          ≤ 255 * (((s.setBlock a U).block i)).frame_count ∧
        ((((s.setBlock a U).block i)).pixels pix).sum_sq
          ≤ 65025 * (((s.setBlock a U).block i)).frame_count
    rw [setBlock_block]
    split
    · exact hUpix pix
    · exact h4 i pix

theorem detInv_push (s : DetectorState) (y : Nat → Nat) (stride ts : Nat)
    (hInv : DetInv s) (hy : ∀ j, y j ≤ 255) :
    DetInv (detector_push_frame s y stride ts) := by
  obtain ⟨h1, h2, h3, h4⟩ := hInv
  -- bounds satisfied by a block after one update
  have key : ∀ (b1 : FTPBlock) (fidx : Nat), b1.frame_count ≤ 255 →
      (∀ pix, (b1.pixels pix).sum ≤ 255 * b1.frame_count ∧
              (b1.pixels pix).sum_sq ≤ 65025 * b1.frame_count) →
      ∀ pix, ((ftp_block_update b1 y stride fidx).pixels pix).sum
          ≤ 255 * ((ftp_block_update b1 y stride fidx).frame_count) ∧
        ((ftp_block_update b1 y stride fidx).pixels pix).sum_sq
          ≤ 65025 * ((ftp_block_update b1 y stride fidx).frame_count) := by
    intro b1 fidx hc hb pix
    obtain ⟨hs, hq⟩ := hb pix
    simp only [ftp_block_update, ftp_pixel_update_sum, ftp_pixel_update_sum_sq]
    have hyb := hy (pix / b1.width * stride + pix % b1.width)
    have hysq : y (pix / b1.width * stride + pix % b1.width) *
        y (pix / b1.width * stride + pix % b1.width) ≤ 65025 := Nat.mul_le_mul hyb hyb
    constructor
    · have : (b1.pixels pix).sum + y (pix / b1.width * stride + pix % b1.width) < 65536 := by
        omega
      omega
    · have : (b1.pixels pix).sum_sq + y (pix / b1.width * stride + pix % b1.width) *
          y (pix / b1.width * stride + pix % b1.width) < 4294967296 := by
        omega
      omega
  by_cases hfc0 : s.frame_count = 0
  · -- first frame of a cycle: the active block is reset, then updated
    have hstep : detector_push_frame s y stride ts =
        DetectorState.mk
          (s.setBlock s.active
            (ftp_block_update (ftp_block_reset (s.block s.active) ts) y stride 0)).blockA
          (s.setBlock s.active
            (ftp_block_update (ftp_block_reset (s.block s.active) ts) y stride 0)).blockB
          s.active 1 s.pending s.processing := by
      simp [detector_push_frame, hfc0, FTP_BLOCK_FRAMES, setBlock_active, setBlock_pending,
        setBlock_processing]
    have hk := key (ftp_block_reset (s.block s.active) ts) 0 (by simp [ftp_block_reset])
      (by intro pix; simp [ftp_block_reset, FTPPixel.zero])
    rw [hstep]
    refine detInv_after_set s s.active _ s.active 1 s.pending s.processing h2 h4
      (by norm_num) (by simp [ftp_block_update_fc, ftp_block_reset]) hk ?_
    intro _
    rw [setBlock_block]
    simp [ftp_block_update_fc, ftp_block_reset]
  · -- continuing a cycle: the active block has count ≤ frame_count ≤ 255
    have hble : (s.block s.active).frame_count ≤ s.frame_count := h3 hfc0
    have hk := key (s.block s.active) (s.frame_count % 256) (by omega) (h4 s.active)
    have hufc : (ftp_block_update (s.block s.active) y stride
        (s.frame_count % 256)).frame_count = (s.block s.active).frame_count + 1 := rfl
    by_cases hfull : FTP_BLOCK_FRAMES ≤ s.frame_count + 1
    · -- 256th frame: timestamp overwrite, then handoff attempt
      have hUfc : ({ ftp_block_update (s.block s.active) y stride (s.frame_count % 256) with
          timestamp_ms := ts } : FTPBlock).frame_count ≤ 256 := by
        show (s.block s.active).frame_count + 1 ≤ 256
        omega
      have hUpix : ∀ pix,
          (({ ftp_block_update (s.block s.active) y stride (s.frame_count % 256) with
              timestamp_ms := ts } : FTPBlock).pixels pix).sum ≤
            255 * ({ ftp_block_update (s.block s.active) y stride (s.frame_count % 256) with
              timestamp_ms := ts } : FTPBlock).frame_count ∧
          (({ ftp_block_update (s.block s.active) y stride (s.frame_count % 256) with
              timestamp_ms := ts } : FTPBlock).pixels pix).sum_sq ≤
            65025 * ({ ftp_block_update (s.block s.active) y stride (s.frame_count % 256) with
              timestamp_ms := ts } : FTPBlock).frame_count := by
        intro pix
        exact hk pix
      rcases hp : s.pending with _ | pb
      · have hstep : detector_push_frame s y stride ts =
            DetectorState.mk
              (s.setBlock s.active
                { ftp_block_update (s.block s.active) y stride (s.frame_count % 256) with
                  timestamp_ms := ts }).blockA
              (s.setBlock s.active
                { ftp_block_update (s.block s.active) y stride (s.frame_count % 256) with
                  timestamp_ms := ts }).blockB
              (1 - s.active) 0 (some s.active) s.processing := by
          simp [detector_push_frame, hfc0, hfull, hp, setBlock_processing]
        rw [hstep]
        exact detInv_after_set s s.active _ (1 - s.active) 0 (some s.active) s.processing
          h2 h4 (by norm_num) hUfc hUpix (fun hne => absurd rfl hne)
      · have hstep : detector_push_frame s y stride ts =
            DetectorState.mk
              (s.setBlock s.active
                { ftp_block_update (s.block s.active) y stride (s.frame_count % 256) with
                  timestamp_ms := ts }).blockA
              (s.setBlock s.active
                { ftp_block_update (s.block s.active) y stride (s.frame_count % 256) with
                  timestamp_ms := ts }).blockB
              s.active 0 s.pending s.processing := by
          simp [detector_push_frame, hfc0, hfull, hp, setBlock_active, setBlock_pending,
            setBlock_processing]
        rw [hstep]
        exact detInv_after_set s s.active _ s.active 0 s.pending s.processing
          h2 h4 (by norm_num) hUfc hUpix (fun hne => absurd rfl hne)
    · -- mid-cycle frame
      have hstep : detector_push_frame s y stride ts =
          DetectorState.mk
            (s.setBlock s.active
              (ftp_block_update (s.block s.active) y stride (s.frame_count % 256))).blockA
            (s.setBlock s.active
              (ftp_block_update (s.block s.active) y stride (s.frame_count % 256))).blockB
            s.active (s.frame_count + 1) s.pending s.processing := by
        simp [detector_push_frame, hfc0, hfull, setBlock_active, setBlock_pending,
          setBlock_processing]
      rw [hstep]
      have hlt : s.frame_count + 1 ≤ 255 := by
        simp [FTP_BLOCK_FRAMES] at hfull
        omega
      refine detInv_after_set s s.active _ s.active (s.frame_count + 1) s.pending s.processing
        h2 h4 hlt (by rw [hufc]; omega) hk ?_
      intro _
      rw [setBlock_block]
      split
      · rw [hufc]
        omega
      · omega

theorem detInv_take (s : DetectorState) (hInv : DetInv s) : DetInv (worker_take s) := by
  obtain ⟨h1, h2, h3, h4⟩ := hInv
  unfold worker_take
  rcases hp : s.pending with _ | b
  · exact ⟨h1, h2, h3, h4⟩
  · exact ⟨h1, h2, h3, h4⟩

theorem detInv_finish (s : DetectorState) (hInv : DetInv s) : DetInv (worker_finish s) := by
  obtain ⟨h1, h2, h3, h4⟩ := hInv
  unfold worker_finish
  rcases hp : s.processing with _ | b
  · exact ⟨h1, h2, h3, h4⟩
  · have hstep : ({ s.setBlock b (ftp_block_reset (s.block b) 0) with
        processing := none } : DetectorState) =
        DetectorState.mk
          (s.setBlock b (ftp_block_reset (s.block b) 0)).blockA
          (s.setBlock b (ftp_block_reset (s.block b) 0)).blockB
          s.active s.frame_count s.pending none := by
      simp [setBlock_active, setBlock_frame_count, setBlock_pending]
    dsimp only
    rw [hstep]
    refine detInv_after_set s b (ftp_block_reset (s.block b) 0) s.active s.frame_count
      s.pending none h2 h4 h1 (by simp [ftp_block_reset])
      (by intro pix; simp [ftp_block_reset, FTPPixel.zero]) ?_
    rw [setBlock_block]
    intro hne
    split
    · simp [ftp_block_reset]
    · exact h3 hne

theorem DetReachable_inv (s : DetectorState) (h : DetReachable s) : DetInv s := by
  induction h with
  | init =>
    refine ⟨by simp [detector_create_state], ?_, ?_, ?_⟩
    · intro i
      unfold detector_create_state DetectorState.block ftp_block_create
      split <;> simp
    · intro hne
      simp [detector_create_state] at hne
    · intro i pix
      unfold detector_create_state DetectorState.block ftp_block_create
      split <;> simp [FTPPixel.zero]
  | push s y stride ts _ hy ih => exact detInv_push s y stride ts ih hy
  | take s _ ih => exact detInv_take s ih
  | finish s _ ih => exact detInv_finish s ih

/-- C9: in every reachable detector state, every pixel of every block
satisfies `sum ≤ 65280` and `sum_sq ≤ 16646400` (the `u16`/`u32`
fields never wrap), and no block ever accumulates more than 256
updates between resets. -/
theorem C9_no_overflow (s : DetectorState) (h : DetReachable s) :
    ∀ i pix, ((s.block i).pixels pix).sum ≤ 65280 ∧
      ((s.block i).pixels pix).sum_sq ≤ 16646400 ∧
      (s.block i).frame_count ≤ 256 := by
  obtain ⟨h1, h2, h3, h4⟩ := DetReachable_inv s h
  intro i pix
  obtain ⟨hs, hq⟩ := h4 i pix
  have hfc := h2 i
  refine ⟨by omega, by omega, hfc⟩

/-- Witness for C9: the state after one `detector_push_frame` with a
constant frame of luma 7 is reachable and satisfies the bounds. -/
theorem C9_no_overflow_witness :
    DetReachable (detector_push_frame detector_create_state (fun _ => 7) 640 5) ∧
    (∀ i pix,
      (((detector_push_frame detector_create_state (fun _ => 7) 640 5).block i).pixels pix).sum
        ≤ 65280 ∧
      (((detector_push_frame detector_create_state (fun _ => 7) 640 5).block i).pixels
        pix).sum_sq ≤ 16646400 ∧
      ((detector_push_frame detector_create_state (fun _ => 7) 640 5).block i).frame_count
        ≤ 256) := by
  have hr : DetReachable (detector_push_frame detector_create_state (fun _ => 7) 640 5) :=
    DetReachable.push _ _ _ _ DetReachable.init (fun j => by norm_num)
  exact ⟨hr, C9_no_overflow _ hr⟩

set_option maxRecDepth 10000

/-- 256 producer pushes of a black frame with wall-clock timestamps
`1000, 1040, ..., 1000 + 40·255` (one frame every 40 ms starting at
1000 ms). -/
def c8_pushes (n : Nat) : DetectorState :=
  (List.range n).foldl
    (fun s k => detector_push_frame s (fun _ => 0) 640 (1000 + 40 * k))
    detector_create_state

/-- C8: after the first push, the block's `timestamp_ms` holds the
first frame's wall clock (1000, stored by `ftp_block_reset`), but at
handoff after the 256th push the code has overwritten it with the
*last* frame's timestamp (11200).  `process_block` emits exactly this
field as `block_start_ms`, so the JSON carries the last frame's
timestamp, contradicting both the claim and the `ftp.h` documentation
of `timestamp_ms` ("wall-clock ms of first frame in block"). -/
theorem C8_block_start_ms_is_last_frame :
    ((c8_pushes 1).block 0).timestamp_ms = 1000 ∧
    (c8_pushes 256).pending = some 0 ∧
    ((c8_pushes 256).block 0).timestamp_ms = 1000 + 40 * 255 ∧
    (1000 + 40 * 255 : Nat) ≠ 1000 := by
  refine ⟨by decide, by decide, by decide, by decide⟩

/-! ## Hough accumulator (`src/hough.c`) -/

/-- A line candidate (`MeteorLine` in `hough.h`). -/
structure MeteorLine where
  rho : Int
  theta : Nat
  votes : Nat
  length_px : Nat
deriving Repr, DecidableEq

/-- Saturating increment of a `u16` accumulator cell. -/
def satIncr (v : Nat) : Nat := if v < UINT16_MAX then v + 1 else v

/-- One iteration of the `hough_vote` loop, at theta index `t`: the
fixed-point `rho_f = x·cos_tab[t] + y·sin_tab[t]` is divided by 1024
with C's truncating signed division (`rho_f / 1024` in the source),
shifted by `HOUGH_RHO_MAX`, and the cell is saturating-incremented
when the row index is in range.  The trig tables (filled by `trig_init`
from `libm` doubles) are passed as integer-valued parameters. -/
def hough_vote_one (cosT sinT : Nat → Int) (x y t : Nat)
    (acc : Nat → Nat → Nat) : Nat → Nat → Nat :=
  let rho_f : Int := (x : Int) * cosT t + (y : Int) * sinT t
  let rho : Int := rho_f.tdiv 1024
  let idx : Int := rho + (HOUGH_RHO_MAX : Int)
  if 0 ≤ idx ∧ idx < (2 * HOUGH_RHO_MAX : Int) then
    fun r u => if r = idx.toNat ∧ u = t then satIncr (acc r u) else acc r u
  else acc

/-- `hough_vote`: one vote over all theta indices. -/
def hough_vote (cosT sinT : Nat → Int) (acc : Nat → Nat → Nat)
    (x y : Nat) : Nat → Nat → Nat :=
  (List.range HOUGH_THETA_STEPS).foldl (fun a t => hough_vote_one cosT sinT x y t a) acc

theorem hough_vote_one_eval (cosT sinT : Nat → Int) (x y t : Nat)
    (acc : Nat → Nat → Nat) (r u : Nat) :
    hough_vote_one cosT sinT x y t acc r u =
      (let idx : Int := ((x : Int) * cosT t + (y : Int) * sinT t).tdiv 1024
          + (HOUGH_RHO_MAX : Int)
       if 0 ≤ idx ∧ idx < (2 * HOUGH_RHO_MAX : Int) ∧ r = idx.toNat ∧ u = t then
         satIncr (acc r u) else acc r u) := by
  unfold hough_vote_one
  by_cases h1 : (0 : Int) ≤ ((x : Int) * cosT t + (y : Int) * sinT t).tdiv 1024
      + (HOUGH_RHO_MAX : Int)
  all_goals by_cases h2 : ((x : Int) * cosT t + (y : Int) * sinT t).tdiv 1024
      + (HOUGH_RHO_MAX : Int) < (2 * HOUGH_RHO_MAX : Int)
  all_goals by_cases h3 : r = (((x : Int) * cosT t + (y : Int) * sinT t).tdiv 1024
      + (HOUGH_RHO_MAX : Int)).toNat ∧ u = t
  all_goals simp [h1, h2, h3]

theorem hough_vote_one_other (cosT sinT : Nat → Int) (x y t : Nat)
    (acc : Nat → Nat → Nat) (r u : Nat) (h : u ≠ t) :
    hough_vote_one cosT sinT x y t acc r u = acc r u := by
  rw [hough_vote_one_eval]
  simp [h]

theorem hough_vote_foldl_untouched (cosT sinT : Nat → Int) (x y : Nat) :
    ∀ (L : List Nat) (acc : Nat → Nat → Nat) (r u : Nat), u ∉ L →
      (L.foldl (fun a t => hough_vote_one cosT sinT x y t a) acc) r u = acc r u := by
  intro L
  induction L with
  | nil => intro acc r u _; rfl
  | cons t rest ih =>
    intro acc r u hu
    simp only [List.foldl_cons]
    rw [ih _ r u (fun hm => hu (List.mem_cons_of_mem t hm))]
    exact hough_vote_one_other cosT sinT x y t acc r u
      (fun he => hu (he ▸ List.mem_cons_self t rest))

/-- C5 (amended): for `t < 180` the cell considered for increment by
`hough_vote` is row `trunc(rho_fp / 1024) + RHO_MAX` (C truncating
division, not an arithmetic shift), column `t`. -/
theorem C5_vote_cell_truncating_division (cosT sinT : Nat → Int)
    (acc : Nat → Nat → Nat) (x y t r : Nat) (ht : t < HOUGH_THETA_STEPS) :
    hough_vote cosT sinT acc x y r t =
      (let idx : Int := ((x : Int) * cosT t + (y : Int) * sinT t).tdiv 1024
          + (HOUGH_RHO_MAX : Int)
       if 0 ≤ idx ∧ idx < (2 * HOUGH_RHO_MAX : Int) ∧ (r : Int) = idx then
         satIncr (acc r t) else acc r t) := by
  have hmem : t ∈ List.range HOUGH_THETA_STEPS := List.mem_range.mpr ht
  obtain ⟨L1, L2, hsplit⟩ := List.append_of_mem hmem
  have hnd : (List.range HOUGH_THETA_STEPS).Nodup := List.nodup_range _
  rw [hsplit] at hnd
  have hnd1 := (List.nodup_append.mp hnd).1
  have hnd2 := (List.nodup_append.mp hnd).2.1
  have hdisj := (List.nodup_append.mp hnd).2.2
  have ht2 : t ∉ L2 := by
    have := List.nodup_cons.mp hnd2
    exact this.1
  have ht1 : t ∉ L1 := by
    intro hmem1
    exact absurd (List.mem_cons_self t L2) (hdisj hmem1)
  unfold hough_vote
  rw [hsplit, List.foldl_append, List.foldl_cons]
  rw [hough_vote_foldl_untouched cosT sinT x y L2 _ r t ht2]
  rw [hough_vote_one_eval]
  rw [hough_vote_foldl_untouched cosT sinT x y L1 acc r t ht1]
  have htoNat : ∀ idx : Int, 0 ≤ idx → ((r : Int) = idx ↔ r = idx.toNat) := by
    intro idx hnn
    constructor
    · intro he
      omega
    · intro he
      omega
  by_cases h1 : (0 : Int) ≤ ((x : Int) * cosT t + (y : Int) * sinT t).tdiv 1024
      + (HOUGH_RHO_MAX : Int)
  · simp only [h1, true_and]
    by_cases h2 : ((x : Int) * cosT t + (y : Int) * sinT t).tdiv 1024
        + (HOUGH_RHO_MAX : Int) < (2 * HOUGH_RHO_MAX : Int)
    · simp only [h2, true_and, and_true]
      exact if_congr ((htoNat _ h1).symm) rfl rfl
    · simp [h2]
  · simp [h1]

/-- C5 counterexample: with a table entry of `−17` (the value the
program's `trig_init` stores in `cos_tab[91]`, since
`(int16_t)(cos(91°)·1024) = (int16_t)(−17.87...) = −17`), the vote for
`(x, y) = (1, 0)` at that theta lands in row `tdiv(−17, 1024) + 900 =
900`, not in the row `(−17 >> 10) + 900 = fdiv(−17, 1024) + 900 = 899`
that the claim's arithmetic-shift rule names. -/
theorem C5_counterexample :
    hough_vote (fun _ => (-17 : Int)) (fun _ => 0) (fun _ _ => 0) 1 0 900 0 = 1 ∧
    hough_vote (fun _ => (-17 : Int)) (fun _ => 0) (fun _ _ => 0) 1 0 899 0 = 0 ∧
    ((1 : Int) * (-17) + (0 : Int) * 0).fdiv 1024 + (HOUGH_RHO_MAX : Int) = 899 ∧
    ((1 : Int) * (-17) + (0 : Int) * 0).tdiv 1024 + (HOUGH_RHO_MAX : Int) = 900 := by
  refine ⟨?_, ?_, by decide, by decide⟩
  · rw [C5_vote_cell_truncating_division _ _ _ _ _ _ _ (by norm_num [HOUGH_THETA_STEPS])]
    decide
  · rw [C5_vote_cell_truncating_division _ _ _ _ _ _ _ (by norm_num [HOUGH_THETA_STEPS])]
    decide

/-- Witness for C5 (amended) at a positive table value: `cos_tab` 1024,
`sin_tab` 0, vote `(3, 0)` at `t = 7` lands in row `3 + 900`. -/
theorem C5_vote_cell_truncating_division_witness :
    (7 < HOUGH_THETA_STEPS) ∧
    hough_vote (fun _ => (1024 : Int)) (fun _ => 0) (fun _ _ => 0) 3 0 903 7 =
      (let idx : Int := ((3 : Int) * 1024 + (0 : Int) * 0).tdiv 1024 + (HOUGH_RHO_MAX : Int)
       if 0 ≤ idx ∧ idx < (2 * HOUGH_RHO_MAX : Int) ∧ ((903 : Nat) : Int) = idx then
         satIncr 0 else 0) :=
  ⟨by norm_num [HOUGH_THETA_STEPS],
   C5_vote_cell_truncating_division (fun _ => (1024 : Int)) (fun _ => 0) (fun _ _ => 0)
     3 0 7 903 (by norm_num [HOUGH_THETA_STEPS])⟩

/-- The per-cell peak test of `hough_find_peaks`: value at least the
threshold, and not smaller than any of the 8 neighbours (the source
skips a cell when `v < neighbour`, so equal-valued plateau cells pass). -/
def isPeakAt (acc : Nat → Nat → Nat) (thr r t : Nat) : Bool :=
  let v := acc r t
  decide (thr ≤ v) &&
  !decide (v < acc (r - 1) (t - 1)) && !decide (v < acc (r - 1) t) &&
  !decide (v < acc (r - 1) (t + 1)) &&
  !decide (v < acc r (t - 1)) && !decide (v < acc r (t + 1)) &&
  !decide (v < acc (r + 1) (t - 1)) && !decide (v < acc (r + 1) t) &&
  !decide (v < acc (r + 1) (t + 1))

/-- The line emitted for an accumulator cell: `rho = r − RHO_MAX`,
`theta = t`, `votes = length_px = accum[r][t]`. -/
def mkLine (acc : Nat → Nat → Nat) (r t : Nat) : MeteorLine :=
  ⟨(r : Int) - (HOUGH_RHO_MAX : Int), t, acc r t, acc r t⟩

/-- The doubly-nested scan loop of `hough_find_peaks`, with the
`found < max_lines` early exit. -/
def peaksLoop (acc : Nat → Nat → Nat) (thr maxL : Nat) :
    List (Nat × Nat) → Nat → List MeteorLine
  | [], _ => []
  | c :: rest, found =>
    if found < maxL then
      if isPeakAt acc thr c.1 c.2 then
        mkLine acc c.1 c.2 :: peaksLoop acc thr maxL rest (found + 1)
      else peaksLoop acc thr maxL rest found
    else []

/-- The interior cells scanned by `hough_find_peaks`, in loop order:
`r ∈ [1, 2·RHO_MAX−1)` outer, `t ∈ [1, THETA_STEPS−1)` inner. -/
def scanCells : List (Nat × Nat) :=
  (List.range' 1 (2 * HOUGH_RHO_MAX - 2)).flatMap
    (fun r => (List.range' 1 (HOUGH_THETA_STEPS - 2)).map (fun t => (r, t)))

/-- `hough_find_peaks` as a function of the accumulator. -/
def hough_find_peaks (acc : Nat → Nat → Nat) (thr maxL : Nat) : List MeteorLine :=
  peaksLoop acc thr maxL scanCells 0

theorem peaksLoop_mem (acc : Nat → Nat → Nat) (thr maxL : Nat) :
    ∀ (cells : List (Nat × Nat)) (cnt : Nat) (l : MeteorLine),
      l ∈ peaksLoop acc thr maxL cells cnt →
      ∃ c ∈ cells, isPeakAt acc thr c.1 c.2 = true ∧ l = mkLine acc c.1 c.2 := by
  intro cells
  induction cells with
  | nil => intro cnt l hl; cases hl
  | cons c rest ih =>
    intro cnt l hl
    unfold peaksLoop at hl
    by_cases h1 : cnt < maxL
    · rw [if_pos h1] at hl
      by_cases h2 : isPeakAt acc thr c.1 c.2 = true
      · rw [if_pos h2] at hl
        rcases List.mem_cons.mp hl with h | h
        · exact ⟨c, List.mem_cons_self c rest, h2, h⟩
        · obtain ⟨c', hc', hp', he'⟩ := ih (cnt + 1) l h
          exact ⟨c', List.mem_cons_of_mem c hc', hp', he'⟩
      · rw [if_neg h2] at hl
        obtain ⟨c', hc', hp', he'⟩ := ih cnt l hl
        exact ⟨c', List.mem_cons_of_mem c hc', hp', he'⟩
    · rw [if_neg h1] at hl
      cases hl

theorem scanCells_mem (c : Nat × Nat) (hc : c ∈ scanCells) :
    1 ≤ c.1 ∧ c.1 < 2 * HOUGH_RHO_MAX - 1 ∧ 1 ≤ c.2 ∧ c.2 < HOUGH_THETA_STEPS - 1 := by
  unfold scanCells at hc
  rcases List.mem_flatMap.mp hc with ⟨r, hr, hmem⟩
  rcases List.mem_map.mp hmem with ⟨t, htm, rfl⟩
  have h1 := List.mem_range'_1.mp hr
  have h2 := List.mem_range'_1.mp htm
  refine ⟨h1.1, ?_, h2.1, ?_⟩
  · have := h1.2
    norm_num [HOUGH_RHO_MAX] at this ⊢
    omega
  · have := h2.2
    norm_num [HOUGH_THETA_STEPS] at this ⊢
    omega

/-- C6 (amended): every line returned by `hough_find_peaks` lies in the
scanned interior, carries the accumulator value at its cell as its
vote count, meets the threshold, and is at least as large as each of
its 8 neighbours (non-strict: tied plateau cells are all returned). -/
theorem C6_peak_locality (acc : Nat → Nat → Nat) (thr maxL : Nat) :
    ∀ l ∈ hough_find_peaks acc thr maxL, ∃ r t,
      1 ≤ r ∧ r < 2 * HOUGH_RHO_MAX - 1 ∧ 1 ≤ t ∧ t < HOUGH_THETA_STEPS - 1 ∧
      l.rho = (r : Int) - (HOUGH_RHO_MAX : Int) ∧ l.theta = t ∧ l.votes = acc r t ∧
      thr ≤ l.votes ∧
      acc (r - 1) (t - 1) ≤ l.votes ∧ acc (r - 1) t ≤ l.votes ∧
      acc (r - 1) (t + 1) ≤ l.votes ∧
      acc r (t - 1) ≤ l.votes ∧ acc r (t + 1) ≤ l.votes ∧
      acc (r + 1) (t - 1) ≤ l.votes ∧ acc (r + 1) t ≤ l.votes ∧
      acc (r + 1) (t + 1) ≤ l.votes := by
  intro l hl
  obtain ⟨c, hc, hpk, rfl⟩ := peaksLoop_mem acc thr maxL scanCells 0 l hl
  obtain ⟨hr1, hr2, ht1, ht2⟩ := scanCells_mem c hc
  refine ⟨c.1, c.2, hr1, hr2, ht1, ht2, rfl, rfl, rfl, ?_⟩
  unfold isPeakAt at hpk
  simp only [Bool.and_eq_true, decide_eq_true_eq, Bool.not_eq_true',
    decide_eq_false_iff_not, Nat.not_lt] at hpk
  exact ⟨hpk.1.1.1.1.1.1.1.1, hpk.1.1.1.1.1.1.1.2, hpk.1.1.1.1.1.1.2,
    hpk.1.1.1.1.1.2, hpk.1.1.1.1.2, hpk.1.1.1.2, hpk.1.1.2, hpk.1.2, hpk.2⟩

/-- An accumulator with a two-cell plateau: cells `(1,1)` and `(1,2)`
both hold 9, everything else 0. -/
def accTie : Nat → Nat → Nat :=
  fun r t => if r = 1 ∧ (t = 1 ∨ t = 2) then 9 else 0

theorem scanCells_take3 : ∃ rest, scanCells = (1, 1) :: (1, 2) :: (1, 3) :: rest := by
  unfold scanCells
  norm_num [HOUGH_RHO_MAX, HOUGH_THETA_STEPS]
  rw [show (1798 : Nat) = 1797 + 1 by norm_num, List.range'_succ]
  rw [show (178 : Nat) = 177 + 1 by norm_num, List.range'_succ]
  rw [show (177 : Nat) = 176 + 1 by norm_num, List.range'_succ]
  rw [show (176 : Nat) = 175 + 1 by norm_num, List.range'_succ]
  rw [List.flatMap_cons]
  exact ⟨_, rfl⟩

theorem accTie_peaks : ∃ rest,
    hough_find_peaks accTie HOUGH_PEAK_THRESHOLD DETECTOR_MAX_LINES =
      mkLine accTie 1 1 :: mkLine accTie 1 2 :: rest := by
  obtain ⟨rest, hsc⟩ := scanCells_take3
  unfold hough_find_peaks
  rw [hsc]
  have h11 : isPeakAt accTie HOUGH_PEAK_THRESHOLD 1 1 = true := by decide
  have h12 : isPeakAt accTie HOUGH_PEAK_THRESHOLD 1 2 = true := by decide
  have h13 : isPeakAt accTie HOUGH_PEAK_THRESHOLD 1 3 = false := by decide
  simp only [peaksLoop, h11, h12, h13, DETECTOR_MAX_LINES]
  norm_num

/-- C6 counterexample: the returned line for the plateau cell `(1,1)`
(value 9) is not strictly greater than its neighbour `(1,2)` (also 9),
so the claim's strict 3×3 local-maximum property fails on
`hough_find_peaks`'s output. -/
theorem C6_counterexample :
    ¬ (∀ l ∈ hough_find_peaks accTie HOUGH_PEAK_THRESHOLD DETECTOR_MAX_LINES, ∃ r t,
        1 ≤ r ∧ r < 2 * HOUGH_RHO_MAX - 1 ∧ 1 ≤ t ∧ t < HOUGH_THETA_STEPS - 1 ∧
        l.rho = (r : Int) - (HOUGH_RHO_MAX : Int) ∧ l.theta = t ∧
        HOUGH_PEAK_THRESHOLD ≤ l.votes ∧
        accTie (r - 1) (t - 1) < l.votes ∧ accTie (r - 1) t < l.votes ∧
        accTie (r - 1) (t + 1) < l.votes ∧
        accTie r (t - 1) < l.votes ∧ accTie r (t + 1) < l.votes ∧
        accTie (r + 1) (t - 1) < l.votes ∧ accTie (r + 1) t < l.votes ∧
        accTie (r + 1) (t + 1) < l.votes) := by
  intro h
  obtain ⟨rest, hpk⟩ := accTie_peaks
  have hm : mkLine accTie 1 1 ∈
      hough_find_peaks accTie HOUGH_PEAK_THRESHOLD DETECTOR_MAX_LINES := by
    rw [hpk]
    exact List.mem_cons_self _ _
  obtain ⟨r, t, _, _, _, _, hrho, htheta, _, _, _, _, _, hs5, _, _, _⟩ := h _ hm
  have ht : t = 1 := by
    simpa [mkLine] using htheta.symm
  have hr : r = 1 := by
    simp only [mkLine, HOUGH_RHO_MAX] at hrho
    omega
  subst ht hr
  norm_num [accTie, mkLine] at hs5

/-- Witness for C6 (amended): the plateau line at `(1,1)` is returned
and satisfies the non-strict locality property. -/
theorem C6_peak_locality_witness :
    (mkLine accTie 1 1 ∈ hough_find_peaks accTie HOUGH_PEAK_THRESHOLD DETECTOR_MAX_LINES) ∧
    (∃ r t,
      1 ≤ r ∧ r < 2 * HOUGH_RHO_MAX - 1 ∧ 1 ≤ t ∧ t < HOUGH_THETA_STEPS - 1 ∧
      (mkLine accTie 1 1).rho = (r : Int) - (HOUGH_RHO_MAX : Int) ∧
      (mkLine accTie 1 1).theta = t ∧ (mkLine accTie 1 1).votes = accTie r t ∧
      HOUGH_PEAK_THRESHOLD ≤ (mkLine accTie 1 1).votes ∧
      accTie (r - 1) (t - 1) ≤ (mkLine accTie 1 1).votes ∧
      accTie (r - 1) t ≤ (mkLine accTie 1 1).votes ∧
      accTie (r - 1) (t + 1) ≤ (mkLine accTie 1 1).votes ∧
      accTie r (t - 1) ≤ (mkLine accTie 1 1).votes ∧
      accTie r (t + 1) ≤ (mkLine accTie 1 1).votes ∧
      accTie (r + 1) (t - 1) ≤ (mkLine accTie 1 1).votes ∧
      accTie (r + 1) t ≤ (mkLine accTie 1 1).votes ∧
      accTie (r + 1) (t + 1) ≤ (mkLine accTie 1 1).votes) := by
  obtain ⟨rest, hpk⟩ := accTie_peaks
  have hm : mkLine accTie 1 1 ∈
      hough_find_peaks accTie HOUGH_PEAK_THRESHOLD DETECTOR_MAX_LINES := by
    rw [hpk]
    exact List.mem_cons_self _ _
  exact ⟨hm, C6_peak_locality accTie HOUGH_PEAK_THRESHOLD DETECTOR_MAX_LINES _ hm⟩

/-! ## Peak examination order in `process_block` (`src/detector.c`) -/

/-- Scan order on emitted lines: increasing rho, theta as tie-break. -/
def scanLt (a b : MeteorLine) : Prop :=
  a.rho < b.rho ∨ (a.rho = b.rho ∧ a.theta < b.theta)

/-- Scan order on accumulator cells. -/
def cellLt (a b : Nat × Nat) : Prop :=
  a.1 < b.1 ∨ (a.1 = b.1 ∧ a.2 < b.2)

/-- The peak-examination loop of `process_block`, with the vote filter
explicit and the endpoint/length filters abstracted into `G` (they use
floating-point trig in the source): `continue` on a failing filter,
emit and `break` on the first passing peak. -/
def process_peaks (G : MeteorLine → Bool) : List MeteorLine → List MeteorLine
  | [] => []
  | l :: rest =>
    if l.votes < METEOR_MIN_VOTES then process_peaks G rest
    else if G l then [l] else process_peaks G rest

theorem pairwise_flatMap {α β : Type} (R : β → β → Prop) (S : α → α → Prop)
    (f : α → List β) :
    ∀ (L : List α), L.Pairwise S → (∀ a ∈ L, (f a).Pairwise R) →
      (∀ a b, S a b → ∀ x ∈ f a, ∀ y ∈ f b, R x y) →
      (L.flatMap f).Pairwise R := by
  intro L
  induction L with
  | nil => intro _ _ _; simp
  | cons a L ih =>
    intro hL hin hcross
    rw [List.flatMap_cons, List.pairwise_append]
    have hLc := List.pairwise_cons.mp hL
    refine ⟨hin a (List.mem_cons_self a L), ih hLc.2
      (fun b hb => hin b (List.mem_cons_of_mem a hb)) hcross, ?_⟩
    intro x hx y hy
    rcases List.mem_flatMap.mp hy with ⟨b, hb, hyb⟩
    exact hcross a b (hLc.1 b hb) x hx y hyb

theorem pairwise_scanCells : scanCells.Pairwise cellLt := by
  unfold scanCells
  refine pairwise_flatMap cellLt (· < ·) _ _ (List.pairwise_lt_range' 1 _ 1) ?_ ?_
  · intro r _
    rw [List.pairwise_map]
    refine List.Pairwise.imp ?_ (List.pairwise_lt_range' 1 _ 1)
    intro t1 t2 ht
    exact Or.inr ⟨rfl, ht⟩
  · intro a b hab x hx y hy
    rcases List.mem_map.mp hx with ⟨t1, _, rfl⟩
    rcases List.mem_map.mp hy with ⟨t2, _, rfl⟩
    exact Or.inl hab

theorem peaksLoop_eq (acc : Nat → Nat → Nat) (thr maxL : Nat) :
    ∀ (cells : List (Nat × Nat)) (cnt : Nat),
      peaksLoop acc thr maxL cells cnt =
        ((cells.filter (fun c => isPeakAt acc thr c.1 c.2)).take (maxL - cnt)).map
          (fun c => mkLine acc c.1 c.2) := by
  intro cells
  induction cells with
  | nil => intro cnt; simp [peaksLoop]
  | cons c rest ih =>
    intro cnt
    unfold peaksLoop
    by_cases hcnt : cnt < maxL
    · rw [if_pos hcnt]
      by_cases hpk : isPeakAt acc thr c.1 c.2 = true
      · rw [if_pos hpk]
        have hf : List.filter (fun c => isPeakAt acc thr c.1 c.2) (c :: rest) =
            c :: List.filter (fun c => isPeakAt acc thr c.1 c.2) rest := by
          simp [List.filter_cons, hpk]
        have hm : maxL - cnt = (maxL - (cnt + 1)) + 1 := by omega
        rw [hf, hm, List.take_succ_cons, List.map_cons, ih (cnt + 1)]
      · rw [if_neg hpk]
        have hf : List.filter (fun c => isPeakAt acc thr c.1 c.2) (c :: rest) =
            List.filter (fun c => isPeakAt acc thr c.1 c.2) rest := by
          simp [List.filter_cons, hpk]
        rw [hf, ih cnt]
    · rw [if_neg hcnt]
      have hm : maxL - cnt = 0 := by omega
      rw [List.filter_cons]
      split <;> simp [hm]

theorem hough_find_peaks_pairwise (acc : Nat → Nat → Nat) (thr maxL : Nat) :
    (hough_find_peaks acc thr maxL).Pairwise scanLt := by
  unfold hough_find_peaks
  rw [peaksLoop_eq]
  rw [List.pairwise_map]
  have hsub : ((scanCells.filter (fun c => isPeakAt acc thr c.1 c.2)).take (maxL - 0)).Sublist
      scanCells :=
    (List.take_sublist _ _).trans (List.filter_sublist _)
  refine List.Pairwise.imp ?_ (List.Pairwise.sublist hsub pairwise_scanCells)
  intro c d hcd
  rcases hcd with h | ⟨he, ht⟩
  · exact Or.inl (by simp [mkLine]; omega)
  · exact Or.inr ⟨by simp [mkLine, he], by simp [mkLine, ht]⟩

theorem process_peaks_len (G : MeteorLine → Bool) :
    ∀ ls, (process_peaks G ls).length ≤ 1 := by
  intro ls
  induction ls with
  | nil => simp [process_peaks]
  | cons l rest ih =>
    unfold process_peaks
    split
    · exact ih
    · split
      · simp
      · exact ih

theorem process_peaks_single (G : MeteorLine → Bool) :
    ∀ ls l, process_peaks G ls = [l] →
      (METEOR_MIN_VOTES ≤ l.votes ∧ G l = true) ∧
      ∃ pre post, ls = pre ++ l :: post ∧
        ∀ x ∈ pre, x.votes < METEOR_MIN_VOTES ∨ G x = false := by
  intro ls
  induction ls with
  | nil => intro l h; simp [process_peaks] at h
  | cons l0 rest ih =>
    intro l h
    unfold process_peaks at h
    by_cases h1 : l0.votes < METEOR_MIN_VOTES
    · rw [if_pos h1] at h
      obtain ⟨hl, pre, post, heq, hpre⟩ := ih l h
      refine ⟨hl, l0 :: pre, post, by rw [List.cons_append, heq], ?_⟩
      intro x hx
      rcases List.mem_cons.mp hx with rfl | hx'
      · exact Or.inl h1
      · exact hpre x hx'
    · rw [if_neg h1] at h
      by_cases h2 : G l0 = true
      · simp only [h2, if_true] at h
        have hl0 : l0 = l := by
          injection h
        subst hl0
        exact ⟨⟨Nat.not_lt.mp h1, h2⟩, [], rest, rfl, by simp⟩
      · simp only [h2, if_false, Bool.false_eq_true] at h
        obtain ⟨hl, pre, post, heq, hpre⟩ := ih l h
        refine ⟨hl, l0 :: pre, post, by rw [List.cons_append, heq], ?_⟩
        intro x hx
        rcases List.mem_cons.mp hx with rfl | hx'
        · exact Or.inr (by simpa using h2)
        · exact hpre x hx'

/-- C7 (amended): `hough_find_peaks` returns peaks in accumulator scan
order (increasing rho row, theta as tie-break), not sorted by votes;
`process_block` emits at most one detection per block, namely for the
*first* peak in that scan order passing the vote and geometry filters —
every earlier peak fails a filter. -/
theorem C7_first_passing_scan_order (acc : Nat → Nat → Nat) (thr maxL : Nat)
    (G : MeteorLine → Bool) :
    (hough_find_peaks acc thr maxL).Pairwise scanLt ∧
    (process_peaks G (hough_find_peaks acc thr maxL)).length ≤ 1 ∧
    ∀ l, process_peaks G (hough_find_peaks acc thr maxL) = [l] →
      (METEOR_MIN_VOTES ≤ l.votes ∧ G l = true) ∧
      ∃ pre post, hough_find_peaks acc thr maxL = pre ++ l :: post ∧
        ∀ x ∈ pre, x.votes < METEOR_MIN_VOTES ∨ G x = false :=
  ⟨hough_find_peaks_pairwise acc thr maxL,
   process_peaks_len G _,
   fun l h => process_peaks_single G _ l h⟩

/-- An accumulator with two isolated peaks in scan order: cell `(1,1)`
holds 10 votes, cell `(1,3)` holds 50, everything else 0. -/
def accTwo : Nat → Nat → Nat :=
  fun r t => if r = 1 ∧ t = 1 then 10 else if r = 1 ∧ t = 3 then 50 else 0

theorem accTwo_peaks : ∃ rest,
    hough_find_peaks accTwo HOUGH_PEAK_THRESHOLD DETECTOR_MAX_LINES =
      mkLine accTwo 1 1 :: mkLine accTwo 1 3 :: rest := by
  obtain ⟨rest, hsc⟩ := scanCells_take3
  unfold hough_find_peaks
  rw [hsc]
  have h11 : isPeakAt accTwo HOUGH_PEAK_THRESHOLD 1 1 = true := by decide
  have h12 : isPeakAt accTwo HOUGH_PEAK_THRESHOLD 1 2 = false := by decide
  have h13 : isPeakAt accTwo HOUGH_PEAK_THRESHOLD 1 3 = true := by decide
  simp only [peaksLoop, h11, h12, h13, DETECTOR_MAX_LINES]
  norm_num

theorem accTwo_selects_first : process_peaks (fun _ => true)
    (hough_find_peaks accTwo HOUGH_PEAK_THRESHOLD DETECTOR_MAX_LINES) =
    [mkLine accTwo 1 1] := by
  obtain ⟨rest, hpk⟩ := accTwo_peaks
  rw [hpk]
  norm_num [process_peaks, mkLine, accTwo, METEOR_MIN_VOTES]

/-- C7 counterexample: with every geometry filter passing, the emitted
detection for `accTwo` is the 10-vote peak at `(1,1)` — the first in
scan order — although the 50-vote peak at `(1,3)` also passes all
filters.  So the consumer does not examine peaks in descending vote
order and the emitted detection is not the most-voted passing peak. -/
theorem C7_counterexample :
    ¬ (∀ (G : MeteorLine → Bool) (l : MeteorLine),
        process_peaks G (hough_find_peaks accTwo HOUGH_PEAK_THRESHOLD DETECTOR_MAX_LINES)
          = [l] →
        ∀ x ∈ hough_find_peaks accTwo HOUGH_PEAK_THRESHOLD DETECTOR_MAX_LINES,
          METEOR_MIN_VOTES ≤ x.votes → G x = true → x.votes ≤ l.votes) := by
  intro h
  obtain ⟨rest, hpk⟩ := accTwo_peaks
  have hm : mkLine accTwo 1 3 ∈
      hough_find_peaks accTwo HOUGH_PEAK_THRESHOLD DETECTOR_MAX_LINES := by
    rw [hpk]
    exact List.mem_cons_of_mem _ (List.mem_cons_self _ _)
  have hv := h (fun _ => true) (mkLine accTwo 1 1) accTwo_selects_first
    (mkLine accTwo 1 3) hm (by norm_num [mkLine, accTwo, METEOR_MIN_VOTES]) rfl
  norm_num [mkLine, accTwo] at hv

/-- Witness for C7 (amended) at `accTwo` with all geometry filters
passing: the emitted line is the first passing peak in scan order. -/
theorem C7_first_passing_scan_order_witness :
    (process_peaks (fun _ => true)
        (hough_find_peaks accTwo HOUGH_PEAK_THRESHOLD DETECTOR_MAX_LINES) =
      [mkLine accTwo 1 1]) ∧
    ((METEOR_MIN_VOTES ≤ (mkLine accTwo 1 1).votes ∧ (fun _ : MeteorLine => true)
        (mkLine accTwo 1 1) = true) ∧
      ∃ pre post,
        hough_find_peaks accTwo HOUGH_PEAK_THRESHOLD DETECTOR_MAX_LINES =
          pre ++ mkLine accTwo 1 1 :: post ∧
        ∀ x ∈ pre, x.votes < METEOR_MIN_VOTES ∨ (fun _ : MeteorLine => true) x = false) :=
  ⟨accTwo_selects_first,
   (C7_first_passing_scan_order accTwo HOUGH_PEAK_THRESHOLD DETECTOR_MAX_LINES
      (fun _ => true)).2.2 (mkLine accTwo 1 1) accTwo_selects_first⟩

/-! ## Candidate collection (`collect_candidates` in `src/detector.c`) -/

/-- The per-pixel threshold test: `diff = (int)maxpx[i] - (int)avgpx[i]`,
then `diff > 0 && (uint8_t)diff > (uint8_t)(METEOR_FTP_K * stdpx[i])`.
The `(uint8_t)` casts are `% 256` on the mathematical integers (C
conversion to an unsigned type). -/
def collect_cond (mp ap sp : Nat → Nat) (i : Nat) : Bool :=
  let diff : Int := (mp i : Int) - (ap i : Int)
  decide (0 < diff) &&
  decide (((METEOR_FTP_K : Int) * (sp i : Int)) % 256 < diff % 256)

/-- The scan loop of `collect_candidates`, with the `count < max_cands`
exit condition. -/
def collectGo (mp ap sp : Nat → Nat) (maxc : Nat) : List Nat → Nat → List (Nat × Nat)
  | [], _ => []
  | i :: rest, cnt =>
    if cnt < maxc then
      if collect_cond mp ap sp i then
        (i % DETECT_WIDTH, i / DETECT_WIDTH) :: collectGo mp ap sp maxc rest (cnt + 1)
      else collectGo mp ap sp maxc rest cnt
    else []

/-- `collect_candidates` over the full detection plane. -/
def collect_candidates (mp ap sp : Nat → Nat) : List (Nat × Nat) :=
  collectGo mp ap sp DETECTOR_MAX_CANDS (List.range (DETECT_WIDTH * DETECT_HEIGHT)) 0

theorem collectGo_eq (mp ap sp : Nat → Nat) (maxc : Nat) :
    ∀ (cells : List Nat) (cnt : Nat),
      collectGo mp ap sp maxc cells cnt =
        ((cells.filter (collect_cond mp ap sp)).take (maxc - cnt)).map
          (fun i => (i % DETECT_WIDTH, i / DETECT_WIDTH)) := by
  intro cells
  induction cells with
  | nil => intro cnt; simp [collectGo]
  | cons i rest ih =>
    intro cnt
    unfold collectGo
    by_cases hcnt : cnt < maxc
    · rw [if_pos hcnt]
      by_cases hc : collect_cond mp ap sp i = true
      · rw [if_pos hc]
        have hf : List.filter (collect_cond mp ap sp) (i :: rest) =
            i :: List.filter (collect_cond mp ap sp) rest := by
          simp [List.filter_cons, hc]
        have hm : maxc - cnt = (maxc - (cnt + 1)) + 1 := by omega
        rw [hf, hm, List.take_succ_cons, List.map_cons, ih (cnt + 1)]
      · rw [if_neg hc]
        have hf : List.filter (collect_cond mp ap sp) (i :: rest) =
            List.filter (collect_cond mp ap sp) rest := by
          simp [List.filter_cons, hc]
        rw [hf, ih cnt]
    · rw [if_neg hcnt]
      have hm : maxc - cnt = 0 := by omega
      rw [List.filter_cons]
      split <;> simp [hm]

/-- C2 (amended): the candidates appended are exactly the pixel indices,
in increasing index order and capped at `MAX_CANDIDATES = 4096`, where
`maxpixel − avgpixel > 0` and `maxpixel − avgpixel > (K·stdpixel) mod 256`
— the `uint8_t` cast truncates `K·stdpixel` modulo 256 before the
comparison.  Each such index `i` contributes `(i % W, i / W)`. -/
theorem C2_candidate_collection (mp ap sp : Nat → Nat)
    (hmp : ∀ i, mp i ≤ 255) (hap : ∀ i, ap i ≤ 255) :
    collect_candidates mp ap sp =
      (((List.range (DETECT_WIDTH * DETECT_HEIGHT)).filter
          (fun i => decide (ap i < mp i) &&
            decide ((METEOR_FTP_K * sp i) % 256 < mp i - ap i))).take
        DETECTOR_MAX_CANDS).map (fun i => (i % DETECT_WIDTH, i / DETECT_WIDTH)) := by
  unfold collect_candidates
  rw [collectGo_eq, Nat.sub_zero]
  have hcond : ∀ i ∈ List.range (DETECT_WIDTH * DETECT_HEIGHT),
      collect_cond mp ap sp i =
        (decide (ap i < mp i) &&
          decide ((METEOR_FTP_K * sp i) % 256 < mp i - ap i)) := by
    intro i _
    unfold collect_cond METEOR_FTP_K
    have h1 := hmp i
    have h2 := hap i
    rw [Bool.eq_iff_iff]
    simp only [Bool.and_eq_true, decide_eq_true_eq]
    omega
  rw [List.filter_congr hcond]

/-- C2 counterexample: with `maxpixel = 10`, `avgpixel = 0`,
`stdpixel = 52` everywhere, `K·std = 260` wraps to 4 under the
`uint8_t` cast, so pixel 0 is appended as `(0, 0)` even though the
claim's full-integer comparison `10 > 5·52` is false. -/
theorem C2_counterexample :
    ((0, 0) ∈ collect_candidates (fun _ => 10) (fun _ => 0) (fun _ => 52)) ∧
    ¬ (METEOR_FTP_K * 52 < 10 - 0) := by
  constructor
  · have h0 : List.range (DETECT_WIDTH * DETECT_HEIGHT) =
        0 :: (List.range (DETECT_WIDTH * DETECT_HEIGHT - 1)).map Nat.succ := by
      norm_num [DETECT_WIDTH, DETECT_HEIGHT]
      rw [show (307200 : Nat) = 307199 + 1 by norm_num, List.range_succ_eq_map]
    have hc : collect_cond (fun _ => 10) (fun _ => 0) (fun _ => 52) 0 = true := by decide
    unfold collect_candidates
    rw [h0]
    unfold collectGo
    rw [if_pos (by norm_num [DETECTOR_MAX_CANDS]), if_pos hc]
    exact List.mem_cons_self _ _
  · decide

/-- Witness for C2 (amended) on the planes of the counterexample. -/
theorem C2_candidate_collection_witness :
    ((∀ i : Nat, (10 : Nat) ≤ 255) ∧ (∀ i : Nat, (0 : Nat) ≤ 255)) ∧
    collect_candidates (fun _ => 10) (fun _ => 0) (fun _ => 52) =
      (((List.range (DETECT_WIDTH * DETECT_HEIGHT)).filter
          (fun i => decide ((0 : Nat) < 10) &&
            decide ((METEOR_FTP_K * 52) % 256 < 10 - 0))).take
        DETECTOR_MAX_CANDS).map (fun i => (i % DETECT_WIDTH, i / DETECT_WIDTH)) :=
  ⟨⟨fun _ => by norm_num, fun _ => by norm_num⟩,
   C2_candidate_collection (fun _ => 10) (fun _ => 0) (fun _ => 52)
     (fun _ => by norm_num) (fun _ => by norm_num)⟩

/-! ## FF summary writer (`src/ff_writer.c`) -/

/-- `FFHeader` (`ff_writer.h`): station id, UTC decomposition, geometry,
frame count, frame rate and numeric camera id. -/
structure FFHeader where
  station_id : List Char
  year : Nat
  month : Nat
  day : Nat
  hour : Nat
  minute : Nat
  second : Nat
  millisecond : Nat
  width : Nat
  height : Nat
  nframes : Nat
  fps : Rat
  camno : Nat

/-- `write_u32`: four bytes, little-endian (`v & 0xFF`, `(v >> 8) & 0xFF`,
`(v >> 16) & 0xFF`, `(v >> 24) & 0xFF`). -/
def u32le (v : Nat) : List Nat :=
  [v % 256, v / 256 % 256, v / 65536 % 256, v / 16777216 % 256]

/-- `ff_write` as a byte string: nine little-endian `u32` header words —
`(uint32_t)(-1)`, height, width, nframes, first = 0, camno,
decimation = 1, interleave = 0, `fps_milli = (uint32_t)(fps * 1000.0f)`
(truncation toward zero, modelled on exact rationals) — followed by the
four planes, `width·height` bytes each, in the order maxpixel,
maxframe, avgpixel, stdpixel. -/
def ff_write_bytes (hdr : FFHeader)
    (maxpixel maxframe avgpixel stdpixel : List Nat) : List Nat :=
  let plane_sz := hdr.width * hdr.height
  let fps_milli : Nat := (Int.tdiv (hdr.fps * 1000).num ((hdr.fps * 1000).den : Int)).toNat
  u32le 4294967295 ++ u32le hdr.height ++ u32le hdr.width ++ u32le hdr.nframes ++
  u32le 0 ++ u32le hdr.camno ++ u32le 1 ++ u32le 0 ++ u32le fps_milli ++
  maxpixel.take plane_sz ++ maxframe.take plane_sz ++ avgpixel.take plane_sz ++
  stdpixel.take plane_sz

/-- The header of the spec's format round-trip scenario:
width 4, height 2, station "XX0001", fps 25.0, camera 1, 256 frames. -/
def c3_header : FFHeader :=
  ⟨"XX0001".toList, 2024, 1, 2, 3, 4, 5, 6, 4, 2, 256, 25, 1⟩

/-- The 8-byte plane `[0..7]` of the scenario. -/
def plane8 : List Nat := [0, 1, 2, 3, 4, 5, 6, 7]

/-- C3 counterexample: the serialiser's first 36 bytes differ from the
byte string in the claim — `fps_milli = 25.0 · 1000 = 25000 = 0x61A8`
is serialised as `A8 61 00 00`, not the claimed `E8 61 00 00`
(`0x61E8 = 25064`). -/
theorem c3_fps_milli :
    (Int.tdiv (c3_header.fps * 1000).num ((c3_header.fps * 1000).den : Int)).toNat = 25000 := by
  have h1 : c3_header.fps * 1000 = (25000 : Rat) := by norm_num [c3_header]
  rw [h1]
  norm_num
  decide

theorem C3_counterexample :
    (ff_write_bytes c3_header plane8 plane8 plane8 plane8).take 36 ≠
      [255, 255, 255, 255, 2, 0, 0, 0, 4, 0, 0, 0, 0, 1, 0, 0,
       0, 0, 0, 0, 1, 0, 0, 0, 1, 0, 0, 0, 0, 0, 0, 0, 0xE8, 0x61, 0, 0] := by
  simp only [ff_write_bytes, c3_fps_milli]
  decide

/-- C3 (amended): for the scenario header and planes, the serialiser
produces exactly the 36 header bytes with `A8 61 00 00` as the
`fps_milli` word, followed by the four planes verbatim in the order
maxpixel, maxframe, avgpixel, stdpixel. -/
theorem C3_bit_exact_serialization :
    ff_write_bytes c3_header plane8 plane8 plane8 plane8 =
      [255, 255, 255, 255, 2, 0, 0, 0, 4, 0, 0, 0, 0, 1, 0, 0,
       0, 0, 0, 0, 1, 0, 0, 0, 1, 0, 0, 0, 0, 0, 0, 0, 0xA8, 0x61, 0, 0] ++
      plane8 ++ plane8 ++ plane8 ++ plane8 := by
  simp only [ff_write_bytes, c3_fps_milli]
  decide

/-- Decimal digit characters of `n`, most significant first (the digit
run produced by `printf`'s `%u`); structurally recursive on a fuel
argument so that it evaluates by kernel reduction. -/
def natDecCharsAux : Nat → Nat → List Char → List Char
  | 0, n, acc => Char.ofNat (48 + n % 10) :: acc
  | fuel + 1, n, acc =>
    if n < 10 then Char.ofNat (48 + n) :: acc
    else natDecCharsAux fuel (n / 10) (Char.ofNat (48 + n % 10) :: acc)

/-- Decimal representation of `n` as characters (`n` itself is always
enough fuel: a number has at most `n` digits). -/
def natDecChars (n : Nat) : List Char := natDecCharsAux n n []

/-- `%0wu`: the decimal digits of `n`, left-padded with `'0'` to a
*minimum* width of `w` (longer numbers keep all their digits). -/
def padNum (w n : Nat) : List Char :=
  List.replicate (w - (natDecChars n).length) '0' ++ natDecChars n

/-- `ff_make_filename`:
`FF_<station>_<YYYYMMDD>_<HHMMSS>_<mmm>_000000.bin`. -/
def ff_make_filename (hdr : FFHeader) : List Char :=
  "FF_".toList ++ hdr.station_id ++ "_".toList ++
  padNum 4 hdr.year ++ padNum 2 hdr.month ++ padNum 2 hdr.day ++ "_".toList ++
  padNum 2 hdr.hour ++ padNum 2 hdr.minute ++ padNum 2 hdr.second ++ "_".toList ++
  padNum 3 hdr.millisecond ++ "_000000.bin".toList

/-- The filename shape the claim asserts, built from the claim's words:
`F_<station>_<YYYYMMDD>_<HHMMSS>_<mmm>_000000.bin`. -/
def claim_filename (hdr : FFHeader) : List Char :=
  "F_".toList ++ hdr.station_id ++ "_".toList ++
  padNum 4 hdr.year ++ padNum 2 hdr.month ++ padNum 2 hdr.day ++ "_".toList ++
  padNum 2 hdr.hour ++ padNum 2 hdr.minute ++ padNum 2 hdr.second ++ "_".toList ++
  padNum 3 hdr.millisecond ++ "_000000.bin".toList

/-- The amended filename shape:
`FF_<station>_<YYYYMMDD>_<HHMMSS>_<mmm>_000000.bin`. -/
def spec_filename_FF (hdr : FFHeader) : List Char :=
  "FF_".toList ++ hdr.station_id ++ "_".toList ++
  padNum 4 hdr.year ++ padNum 2 hdr.month ++ padNum 2 hdr.day ++ "_".toList ++
  padNum 2 hdr.hour ++ padNum 2 hdr.minute ++ padNum 2 hdr.second ++ "_".toList ++
  padNum 3 hdr.millisecond ++ "_000000.bin".toList

theorem natDecCharsAux_len :
    ∀ (fuel n : Nat) (acc : List Char) (w : Nat), 0 < w → n < 10 ^ w →
      (natDecCharsAux fuel n acc).length ≤ w + acc.length := by
  intro fuel
  induction fuel with
  | zero =>
    intro n acc w hw _
    simp only [natDecCharsAux, List.length_cons]
    omega
  | succ fuel ih =>
    intro n acc w hw hn
    unfold natDecCharsAux
    split
    · simp only [List.length_cons]
      omega
    · next h =>
      have h10 : 10 ≤ n := Nat.not_lt.mp h
      have hw2 : 2 ≤ w := by
        by_contra hc
        have hw1 : w = 1 := by omega
        subst hw1
        norm_num at hn
        omega
      have hpow : 10 ^ w = 10 ^ (w - 1) * 10 := by
        rw [← pow_succ]
        congr 1
        omega
      have hdiv : n / 10 < 10 ^ (w - 1) := by
        rw [Nat.div_lt_iff_lt_mul (by norm_num : 0 < 10)]
        omega
      have := ih (n / 10) (Char.ofNat (48 + n % 10) :: acc) (w - 1) (by omega) hdiv
      simp only [List.length_cons] at this
      omega

theorem natDecChars_len (n w : Nat) (hw : 0 < w) (hn : n < 10 ^ w) :
    (natDecChars n).length ≤ w := by
  have := natDecCharsAux_len n n [] w hw hn
  simpa [natDecChars] using this

theorem padNum_len (w n : Nat) (hw : 0 < w) (hn : n < 10 ^ w) :
    (padNum w n).length = w := by
  unfold padNum
  rw [List.length_append, List.length_replicate]
  have := natDecChars_len n w hw hn
  omega

/-- C4 (amended): every generated summary filename has exactly the form
`FF_<station>_<YYYYMMDD>_<HHMMSS>_<mmm>_000000.bin` — the prefix is
`FF_`, not the claimed `F_` — with the zero-padded decimal UTC fields
of the header, for a total of `station length + 34` characters when the
fields are within their print widths. -/
theorem C4_filename_format (hdr : FFHeader)
    (hy : hdr.year ≤ 9999) (hmo : hdr.month ≤ 99) (hd : hdr.day ≤ 99)
    (hh : hdr.hour ≤ 99) (hmi : hdr.minute ≤ 99) (hs : hdr.second ≤ 99)
    (hms : hdr.millisecond ≤ 999) :
    ff_make_filename hdr = spec_filename_FF hdr ∧
    (ff_make_filename hdr).length = hdr.station_id.length + 34 := by
  refine ⟨rfl, ?_⟩
  unfold ff_make_filename
  simp only [List.length_append]
  rw [padNum_len 4 hdr.year (by norm_num) (by omega),
      padNum_len 2 hdr.month (by norm_num) (by omega),
      padNum_len 2 hdr.day (by norm_num) (by omega),
      padNum_len 2 hdr.hour (by norm_num) (by omega),
      padNum_len 2 hdr.minute (by norm_num) (by omega),
      padNum_len 2 hdr.second (by norm_num) (by omega),
      padNum_len 3 hdr.millisecond (by norm_num) (by omega)]
  simp [String.toList]
  omega

/-- The header of the C4 counterexample: station "XX0001",
2024-01-02 03:04:05.006 UTC. -/
def c4_header : FFHeader :=
  ⟨"XX0001".toList, 2024, 1, 2, 3, 4, 5, 6, 640, 480, 256, 25, 1⟩

/-- C4 counterexample: the generated name starts with `FF_`, so it is
not of the claimed form `F_<station>_...` — at this header the two
differ (`FF_XX0001_20240102_030405_006_000000.bin` vs
`F_XX0001_20240102_030405_006_000000.bin`). -/
theorem C4_counterexample :
    ff_make_filename c4_header ≠ claim_filename c4_header ∧
    ff_make_filename c4_header = "FF_XX0001_20240102_030405_006_000000.bin".toList := by
  constructor
  · decide
  · decide

/-- Witness for C4 (amended) at the counterexample's header. -/
theorem C4_filename_format_witness :
    (c4_header.year ≤ 9999 ∧ c4_header.month ≤ 99 ∧ c4_header.day ≤ 99 ∧
      c4_header.hour ≤ 99 ∧ c4_header.minute ≤ 99 ∧ c4_header.second ≤ 99 ∧
      c4_header.millisecond ≤ 999) ∧
    (ff_make_filename c4_header = spec_filename_FF c4_header ∧
      (ff_make_filename c4_header).length = c4_header.station_id.length + 34) :=
  ⟨⟨by norm_num [c4_header], by norm_num [c4_header], by norm_num [c4_header],
    by norm_num [c4_header], by norm_num [c4_header], by norm_num [c4_header],
    by norm_num [c4_header]⟩,
   C4_filename_format c4_header (by norm_num [c4_header]) (by norm_num [c4_header])
     (by norm_num [c4_header]) (by norm_num [c4_header]) (by norm_num [c4_header])
     (by norm_num [c4_header]) (by norm_num [c4_header])⟩

/-! ## Stack averager (`src/stacker.c`) and motion counters
(`src/ivs_monitor.c`) -/

/-- The four motion counters (`IVSMotionStats` in `ivs_monitor.h`). -/
structure IVSMotionStats where
  polls : Nat
  active_polls : Nat
  total_rois : Nat
  last_rois : Nat
deriving Repr, DecidableEq

/-- `clamp8` (`stacker.c`). -/
def clamp8 (v : Int) : Nat :=
  if v < 0 then 0 else if 255 < v then 255 else v.toNat

/-- The stacker state relevant to `stacker_on_frame`, together with the
motion-counter state of the `ivs_monitor` collaborator (`monitor`). -/
structure StackerState where
  y_acc : Nat → Nat
  uv_acc : Nat → Nat
  frame_count : Nat
  frames_per_stack : Nat
  y_avg : Nat → Nat
  uv_avg : Nat → Nat
  y_dark : Option (Nat → Nat)
  uv_dark : Option (Nat → Nat)
  enc_pending : Bool
  enc_ts_ms : Nat
  enc_ivs : IVSMotionStats
  stack_index : Nat
  monitor : IVSMotionStats

/-- `stacker_on_frame`: accumulate (u32 adds); on stack completion
compute the `u8` averages, zero the accumulators, apply the optional
dark frame, then *unconditionally* snapshot and reset the motion
counters, and hand off to the encoder only when it is idle. -/
def stacker_on_frame (st : StackerState) (y uv : Nat → Nat)
    (timestamp_ms : Nat) : StackerState :=
  let y_acc1 := fun i => (st.y_acc i + y i) % 4294967296
  let uv_acc1 := fun i => (st.uv_acc i + uv i) % 4294967296
  let fc := st.frame_count + 1
  if fc < st.frames_per_stack then
    { st with y_acc := y_acc1, uv_acc := uv_acc1, frame_count := fc }
  else
    let y_avg0 := fun i => (y_acc1 i / fc) % 256
    let uv_avg0 := fun i => (uv_acc1 i / fc) % 256
    let y_avg1 :=
      match st.y_dark with
      | some d => fun i =>
          let v : Int := (y_avg0 i : Int) - (d i : Int)
          if 0 < v then v.toNat else 0
      | none => y_avg0
    let uv_avg1 :=
      match st.y_dark with
      | some _ =>
        match st.uv_dark with
        | some d => fun i => clamp8 ((uv_avg0 i : Int) - (d i : Int) + 128)
        | none => uv_avg0
      | none => uv_avg0
    let ivs := st.monitor
    let st1 : StackerState :=
      { st with
        y_acc := fun _ => 0
        uv_acc := fun _ => 0
        frame_count := 0
        y_avg := y_avg1
        uv_avg := uv_avg1
        monitor := ⟨0, 0, 0, 0⟩ }
    if st.enc_pending = false then
      { st1 with
        enc_ts_ms := timestamp_ms
        enc_ivs := ivs
        enc_pending := true
        stack_index := st.stack_index + 1 }
    else st1

/-- C10 (amended): once a stack completes, `stacker_on_frame` snapshots
and resets the motion counters *unconditionally* — before checking
`enc_pending`.  When the encoder is idle the snapshot is handed off;
when the encoder is busy the snapshot is discarded (the stashed
`enc_ivs`, timestamp and `stack_index` stay unchanged), so the dropped
stack's counter values are lost. -/
theorem C10_counters_reset_unconditionally (st : StackerState) (y uv : Nat → Nat)
    (ts : Nat) (hfull : st.frames_per_stack ≤ st.frame_count + 1) :
    (stacker_on_frame st y uv ts).monitor = ⟨0, 0, 0, 0⟩ ∧
    (st.enc_pending = true →
      (stacker_on_frame st y uv ts).enc_ivs = st.enc_ivs ∧
      (stacker_on_frame st y uv ts).enc_ts_ms = st.enc_ts_ms ∧
      (stacker_on_frame st y uv ts).stack_index = st.stack_index ∧
      (stacker_on_frame st y uv ts).enc_pending = true) ∧
    (st.enc_pending = false →
      (stacker_on_frame st y uv ts).enc_ivs = st.monitor ∧
      (stacker_on_frame st y uv ts).enc_pending = true ∧
      (stacker_on_frame st y uv ts).stack_index = st.stack_index + 1) := by
  unfold stacker_on_frame
  rw [if_neg (by omega)]
  rcases hp : st.enc_pending with _ | _
  · simp
  · simp

/-- A stacker state one frame short of completion, encoder busy, with
nonzero motion counters. -/
def c10_state : StackerState :=
  ⟨fun _ => 0, fun _ => 0, 0, 1, fun _ => 0, fun _ => 0, none, none,
   true, 0, ⟨0, 0, 0, 0⟩, 7, ⟨3, 2, 5, 1⟩⟩

/-- C10 counterexample: with the encoder busy (`enc_pending = true`)
and motion counters `(3, 2, 5, 1)`, completing a stack zeroes the
counters even though the stack is dropped: the counter values of the
dropped stack are lost, contradicting the claim that a busy-encoder
completion leaves the motion counters unchanged. -/
theorem C10_counterexample :
    c10_state.enc_pending = true ∧
    (stacker_on_frame c10_state (fun _ => 0) (fun _ => 0) 99).monitor = ⟨0, 0, 0, 0⟩ ∧
    c10_state.monitor = ⟨3, 2, 5, 1⟩ ∧
    (stacker_on_frame c10_state (fun _ => 0) (fun _ => 0) 99).monitor ≠ c10_state.monitor ∧
    (stacker_on_frame c10_state (fun _ => 0) (fun _ => 0) 99).enc_ivs = c10_state.enc_ivs ∧
    (stacker_on_frame c10_state (fun _ => 0) (fun _ => 0) 99).stack_index =
      c10_state.stack_index := by
  refine ⟨rfl, ?_, rfl, ?_, ?_, ?_⟩ <;> decide

/-- Witness for C10 (amended) at the counterexample's state. -/
theorem C10_counters_reset_unconditionally_witness :
    (c10_state.frames_per_stack ≤ c10_state.frame_count + 1) ∧
    ((stacker_on_frame c10_state (fun _ => 0) (fun _ => 0) 99).monitor = ⟨0, 0, 0, 0⟩ ∧
     (c10_state.enc_pending = true →
       (stacker_on_frame c10_state (fun _ => 0) (fun _ => 0) 99).enc_ivs = c10_state.enc_ivs ∧
       (stacker_on_frame c10_state (fun _ => 0) (fun _ => 0) 99).enc_ts_ms =
         c10_state.enc_ts_ms ∧
       (stacker_on_frame c10_state (fun _ => 0) (fun _ => 0) 99).stack_index =
         c10_state.stack_index ∧
       (stacker_on_frame c10_state (fun _ => 0) (fun _ => 0) 99).enc_pending = true) ∧
     (c10_state.enc_pending = false →
       (stacker_on_frame c10_state (fun _ => 0) (fun _ => 0) 99).enc_ivs =
         c10_state.monitor ∧
       (stacker_on_frame c10_state (fun _ => 0) (fun _ => 0) 99).enc_pending = true ∧
       (stacker_on_frame c10_state (fun _ => 0) (fun _ => 0) 99).stack_index =
         c10_state.stack_index + 1)) :=
  ⟨by norm_num [c10_state],
   C10_counters_reset_unconditionally c10_state (fun _ => 0) (fun _ => 0) 99
     (by norm_num [c10_state])⟩
